import Mathlib

/-!
Shallow embedding of the simmarket market-clearing engine (src/src/main.rs).

Real-valued quantities of the source (`f64`) are modelled as rationals `ℚ`;
all arithmetic (`+`, `-`, `*`, `/`, comparisons) is exact.  Division by zero
follows Lean's convention `x / 0 = 0` where the source would produce a
non-finite float; the claims are settled on inputs where this difference is
irrelevant (the spec's data model requires strictly positive consumption
coefficients).

The in-place mutation of the Rust `Vec<(Agent, Balance)>` is modelled by
explicit state passing on `List (Agent × Balance)`; a Rust `panic!` / failed
`assert!` is modelled as an `Except.error` carrying the error kind and the
state of the asset vector at the moment of the abort.
-/


/-- `struct Agent` (main.rs lines 54-62). -/
structure Agent where
  production_a : ℚ
  production_b : ℚ
  consumption_a_coeff : ℚ
  consumption_b_coeff : ℚ
  deriving DecidableEq, Inhabited

/-- `Agent::utility` (main.rs lines 65-67): linear utility. -/
def Agent.utility (ag : Agent) (consumption_a consumption_b : ℚ) : ℚ :=
  ag.consumption_a_coeff * consumption_a + ag.consumption_b_coeff * consumption_b

/-- `Agent::indifference_price_of_a_in_b` (main.rs lines 69-71). -/
def Agent.indifference_price_of_a_in_b (ag : Agent) : ℚ :=
  ag.consumption_a_coeff / ag.consumption_b_coeff

/-- `struct Balance` (main.rs lines 167-171). -/
structure Balance where
  a : ℚ
  b : ℚ
  deriving DecidableEq, Inhabited

/-- `type AgentId = usize` (main.rs line 173). -/
abbrev AgentId := Nat

/-- `struct Trade` (main.rs lines 175-182). -/
structure Trade where
  buyer : AgentId
  seller : AgentId
  amount_a : ℚ
  amount_b : ℚ
  deriving DecidableEq, Inhabited

/-- `enum OrderType` (main.rs lines 184-188). -/
inductive OrderType where
  | Bid : OrderType
  | Ask : OrderType
  deriving DecidableEq, Inhabited

/-- `struct Order` (main.rs lines 191-199). -/
structure Order where
  agent_id : AgentId
  typ : OrderType
  amount_a : ℚ
  price_per_a_in_b : ℚ
  deriving DecidableEq, Inhabited

/-- `generate_orders` (main.rs lines 201-229): at most one bid (iff `b > 0`)
and one ask (iff `a > 0`), both priced at the agent's indifference price. -/
def generate_orders (agent_id : AgentId) (agent : Agent) (balance : Balance) :
    Option Order × Option Order :=
  let bid :=
    if balance.b > 0 then
      some { agent_id := agent_id
             typ := OrderType.Bid
             amount_a := balance.b / agent.indifference_price_of_a_in_b
             price_per_a_in_b := agent.indifference_price_of_a_in_b }
    else
      none
  let ask :=
    if balance.a > 0 then
      some { agent_id := agent_id
             typ := OrderType.Ask
             amount_a := balance.a
             price_per_a_in_b := agent.indifference_price_of_a_in_b }
    else
      none
  (bid, ask)

/-- The per-agent order table built by `find_next_trade` (main.rs lines 232-235):
`assets.iter().enumerate().map(generate_orders)`. -/
def order_table (assets : List (Agent × Balance)) : List (Option Order × Option Order) :=
  assets.enum.map (fun p => generate_orders p.1 p.2.1 p.2.2)

/-- The stream of bids fed to `max_by` (main.rs lines 237-239). -/
def all_bids (assets : List (Agent × Balance)) : List Order :=
  (order_table assets).filterMap Prod.fst

/-- The stream of asks before the price filter (main.rs lines 241-243). -/
def all_asks (assets : List (Agent × Balance)) : List Order :=
  (order_table assets).filterMap Prod.snd

/-- Rust `Iterator::max_by` on the price key: fold keeping the maximum,
with ties resolved to the later element. -/
def max_by_price (l : List Order) : Option Order :=
  l.foldl
    (fun acc o =>
      match acc with
      | none => some o
      | some m => if m.price_per_a_in_b ≤ o.price_per_a_in_b then some o else some m)
    none

/-- Rust `Iterator::min_by` on the price key: fold keeping the minimum,
with ties resolved to the earlier element. -/
def min_by_price (l : List Order) : Option Order :=
  l.foldl
    (fun acc o =>
      match acc with
      | none => some o
      | some m => if o.price_per_a_in_b < m.price_per_a_in_b then some o else some m)
    none

/-- The acceptable-ask filter of main.rs line 244:
`!highest_bid.is_some() || o.price_per_a_in_b < highest_bid.unwrap().price_per_a_in_b`. -/
def acceptable_ask (highest_bid : Option Order) (o : Order) : Bool :=
  match highest_bid with
  | none => true
  | some hb => decide (o.price_per_a_in_b < hb.price_per_a_in_b)

/-- The clearing-price / quantity computation of main.rs lines 253-261,
applied to the matched bid and ask and the parties' current balances. -/
def clearing_terms (bid ask : Order) (buyer_balance seller_balance : Balance) : ℚ × ℚ :=
  let clearing_price := (bid.price_per_a_in_b + ask.price_per_a_in_b) / 2
  let amount_a_buyer_can_afford := buyer_balance.b / clearing_price
  if amount_a_buyer_can_afford < seller_balance.a then
    (amount_a_buyer_can_afford, buyer_balance.b)
  else
    (seller_balance.a, clearing_price * seller_balance.a)

/-- `find_next_trade` (main.rs lines 231-271). -/
def find_next_trade (assets : List (Agent × Balance)) : Option Trade :=
  let highest_bid := max_by_price (all_bids assets)
  let lowest_acceptable_ask :=
    min_by_price ((all_asks assets).filter (acceptable_ask highest_bid))
  match highest_bid, lowest_acceptable_ask with
  | some bid, some ask =>
      let buyer_balance := (assets.getD bid.agent_id default).2
      let seller_balance := (assets.getD ask.agent_id default).2
      let terms := clearing_terms bid ask buyer_balance seller_balance
      some { buyer := bid.agent_id
             seller := ask.agent_id
             amount_a := terms.1
             amount_b := terms.2 }
  | _, _ => none

/-- The error kinds of the source's fatal aborts: the four `panic!("oh no")`
negative-balance checks, the two utility `assert!`s of `execute_one_trade`,
and the `assert!` of `sanity_check_endpoint`. -/
inductive FatalError where
  | negative_balance : FatalError
  | buyers_remorse : FatalError
  | sellers_remorse : FatalError
  | terminal_inconsistency : FatalError
  deriving DecidableEq, Inhabited

/-- In-place update `assets[i].1 = f(assets[i].1)` of the Rust vector. -/
def modify_balance (assets : List (Agent × Balance)) (i : AgentId) (f : Balance → Balance) :
    List (Agent × Balance) :=
  match assets.get? i with
  | none => assets
  | some p => assets.set i (p.1, f p.2)

/-- `execute_one_trade` (main.rs lines 273-311).  `Except.ok (s, done)` is a
normal return (`done` is the Rust return value); `Except.error (e, s)` is a
`panic!`/`assert!` abort, carrying the asset vector as it stands at the
moment of the abort.  The four balance updates and their negative-balance
checks happen sequentially, exactly as in the source. -/
def execute_one_trade (assets : List (Agent × Balance)) :
    Except (FatalError × List (Agent × Balance)) (List (Agent × Balance) × Bool) :=
  match find_next_trade assets with
  | none => Except.ok (assets, true)
  | some trade =>
    let buyer := (assets.getD trade.buyer default).1
    let buyer_balance := (assets.getD trade.buyer default).2
    let seller := (assets.getD trade.seller default).1
    let seller_balance := (assets.getD trade.seller default).2
    let initial_buyer_utility := buyer.utility buyer_balance.a buyer_balance.b
    let initial_seller_utility := seller.utility seller_balance.a seller_balance.b
    let s1 := modify_balance assets trade.buyer (fun bal => { bal with a := bal.a + trade.amount_a })
    if (s1.getD trade.buyer default).2.a < 0 then Except.error (FatalError.negative_balance, s1) else
    let s2 := modify_balance s1 trade.seller (fun bal => { bal with a := bal.a - trade.amount_a })
    if (s2.getD trade.seller default).2.a < 0 then Except.error (FatalError.negative_balance, s2) else
    let s3 := modify_balance s2 trade.buyer (fun bal => { bal with b := bal.b - trade.amount_b })
    if (s3.getD trade.buyer default).2.b < 0 then Except.error (FatalError.negative_balance, s3) else
    let s4 := modify_balance s3 trade.seller (fun bal => { bal with b := bal.b + trade.amount_b })
    if (s4.getD trade.seller default).2.b < 0 then Except.error (FatalError.negative_balance, s4) else
    let final_buyer_utility :=
      ((s4.getD trade.buyer default).1).utility (s4.getD trade.buyer default).2.a
        (s4.getD trade.buyer default).2.b
    let final_seller_utility :=
      ((s4.getD trade.seller default).1).utility (s4.getD trade.seller default).2.a
        (s4.getD trade.seller default).2.b
    if final_buyer_utility ≤ initial_buyer_utility then
      Except.error (FatalError.buyers_remorse, s4) else
    if final_seller_utility ≤ initial_seller_utility then
      Except.error (FatalError.sellers_remorse, s4) else
    Except.ok (s4, false)

/-- The `while !execute_one_trade(assets) {}` loop of `execute_all_trades`
(main.rs line 314), with explicit fuel.  `ok (some s)` means the loop exited
normally in state `s` (the final `execute_one_trade` found no trade);
`ok none` means the fuel ran out with the loop still running. -/
def trade_loop : Nat → List (Agent × Balance) →
    Except (FatalError × List (Agent × Balance)) (Option (List (Agent × Balance)))
  | 0, _ => Except.ok none
  | Nat.succ fuel, assets =>
    match execute_one_trade assets with
    | Except.error e => Except.error e
    | Except.ok (s, true) => Except.ok (some s)
    | Except.ok (s, false) => trade_loop fuel s

/-- The stable sort by ascending indifference price performed by
`sanity_check_endpoint` (main.rs lines 319-324).  Rust's `sort_by` is stable;
so is `List.mergeSort`. -/
def sort_assets (assets : List (Agent × Balance)) : List (Agent × Balance) :=
  assets.mergeSort
    (fun p q => decide (p.1.indifference_price_of_a_in_b ≤ q.1.indifference_price_of_a_in_b))

/-- The remainder computed by `sanity_check_endpoint` (main.rs lines 326-330):
what is left of the price-sorted population after skipping the `a == 0`
segment, then the `a > 0 && b > 0` segment, then the `b == 0` segment. -/
def sanity_remainder (assets : List (Agent × Balance)) : List (Agent × Balance) :=
  (((sort_assets assets).dropWhile (fun p => decide (p.2.a = 0))).dropWhile
      (fun p => decide (p.2.a > 0 ∧ p.2.b > 0))).dropWhile
    (fun p => decide (p.2.b = 0))

/-- `sanity_check_endpoint` (main.rs lines 318-340) as a predicate: the
`assert!(remainder.is_empty())` passes. -/
def sanity_check_endpoint (assets : List (Agent × Balance)) : Bool :=
  (sanity_remainder assets).isEmpty

/-- `execute_all_trades` (main.rs lines 313-316): run the loop, then the
terminal sanity check.  `ok (some s)` is a fully successful run ending in
state `s`; `ok none` means the fuel ran out. -/
def execute_all_trades (fuel : Nat) (assets : List (Agent × Balance)) :
    Except (FatalError × List (Agent × Balance)) (Option (List (Agent × Balance))) :=
  match trade_loop fuel assets with
  | Except.error e => Except.error e
  | Except.ok none => Except.ok none
  | Except.ok (some s) =>
    if sanity_check_endpoint s then Except.ok (some s)
    else Except.error (FatalError.terminal_inconsistency, s)

/-- The two-agent fixture of `test_find_next_trade` (main.rs lines 113-140). -/
def fixture_assets : List (Agent × Balance) :=
  [ ({ production_a := 0, production_b := 0,
       consumption_a_coeff := 1, consumption_b_coeff := 5 },
     { a := 1, b := 2 }),
    ({ production_a := 0, production_b := 0,
       consumption_a_coeff := 8, consumption_b_coeff := 1 },
     { a := 3, b := 4 }) ]

/-- The trade that `test_find_next_trade` (main.rs lines 142-150) asserts
`find_next_trade` returns, with the f64 literal `0.12195121951219513` read
as the exact decimal it denotes. -/
def fixture_expected_trade : Trade :=
  { buyer := 1
    seller := 0
    amount_a := 1 / 2
    amount_b := 12195121951219513 / 100000000000000000 }

/-! ### Concrete evaluation on the test fixture -/

/-- The highest bid on the fixture: agent 1 bids at its indifference price 8. -/
def fixture_bid : Order :=
  { agent_id := 1, typ := OrderType.Bid, amount_a := 1/2, price_per_a_in_b := 8 }

/-- The lowest acceptable ask on the fixture: agent 0 asks at price 1/5. -/
def fixture_ask : Order :=
  { agent_id := 0, typ := OrderType.Ask, amount_a := 1, price_per_a_in_b := 1/5 }

/-- The trade the code actually produces on the fixture: the buyer's B
balance binds (`4 / 4.1 = 40/41 < 1`), so `amount_a = 40/41` and the buyer
spends its whole B balance `amount_b = 4`. -/
def fixture_trade : Trade :=
  { buyer := 1, seller := 0, amount_a := 40/41, amount_b := 4 }

/-- The fixture state after settling `fixture_trade`. -/
def fixture_after : List (Agent × Balance) :=
  [ ({ production_a := 0, production_b := 0,
       consumption_a_coeff := 1, consumption_b_coeff := 5 },
     { a := 1/41, b := 6 }),
    ({ production_a := 0, production_b := 0,
       consumption_a_coeff := 8, consumption_b_coeff := 1 },
     { a := 163/41, b := 0 }) ]

/-! ### A population on which settlement aborts after already mutating -/

/-- Like the test fixture, but the buyer (agent 1) starts with a negative A
balance, so the first negative-balance check fires after the buyer's A
balance has already been credited. -/
def shortfall_assets : List (Agent × Balance) :=
  [ ({ production_a := 0, production_b := 0,
       consumption_a_coeff := 1, consumption_b_coeff := 5 },
     { a := 1, b := 2 }),
    ({ production_a := 0, production_b := 0,
       consumption_a_coeff := 8, consumption_b_coeff := 1 },
     { a := -5, b := 4 }) ]

/-- The state `execute_one_trade` has built when the first check fires:
the buyer's A balance has been credited (`-5 + 40/41 = -165/41`), nothing
else yet. -/
def shortfall_mid : List (Agent × Balance) :=
  [ ({ production_a := 0, production_b := 0,
       consumption_a_coeff := 1, consumption_b_coeff := 5 },
     { a := 1, b := 2 }),
    ({ production_a := 0, production_b := 0,
       consumption_a_coeff := 8, consumption_b_coeff := 1 },
     { a := -165/41, b := 4 }) ]

/-! ### A termination measure for the trading loop -/

/-- Number of population indices whose entry satisfies `f`. -/
def count_idx (assets : List (Agent × Balance)) (f : Agent × Balance → Bool) : ℕ :=
  ((Finset.range assets.length).filter (fun i => f (assets.getD i default) = true)).card

/-- Lexicographic measure for the trading loop, packed into one natural
number.  `P` is the current highest bid price; the components count the
agents priced at most `P`, the active bidders priced exactly `P`, and the
potential sellers strictly below `P`. -/
def measure_of (assets : List (Agent × Balance)) : ℕ :=
  match max_by_price (all_bids assets) with
  | none => 0
  | some m =>
      count_idx assets
          (fun p => decide (p.1.indifference_price_of_a_in_b ≤ m.price_per_a_in_b)) *
        (assets.length + 1) ^ 2 +
      count_idx assets
          (fun p => decide (p.1.indifference_price_of_a_in_b = m.price_per_a_in_b ∧
            0 < p.2.b)) *
        (assets.length + 1) +
      count_idx assets
        (fun p => decide (p.1.indifference_price_of_a_in_b < m.price_per_a_in_b ∧
          0 < p.2.a))

/-- The agent of `test_indifference_price` (main.rs lines 91-111). -/
def test_agent : Agent :=
  { production_a := 10, production_b := 10,
    consumption_a_coeff := 1, consumption_b_coeff := 5 }

/-! ### Properties of the max/min folds -/

theorem max_by_price_go {l : List Order} {m : Order} :
    ∃ m', List.foldl
        (fun acc o =>
          match acc with
          | none => some o
          | some m => if m.price_per_a_in_b ≤ o.price_per_a_in_b then some o else some m)
        (some m) l = some m' ∧ (m' = m ∨ m' ∈ l) ∧
      m.price_per_a_in_b ≤ m'.price_per_a_in_b ∧
      ∀ o ∈ l, o.price_per_a_in_b ≤ m'.price_per_a_in_b := by
  induction l generalizing m with
  | nil => exact ⟨m, rfl, Or.inl rfl, le_refl _, by simp⟩
  | cons o l ih =>
    by_cases h : m.price_per_a_in_b ≤ o.price_per_a_in_b
    · obtain ⟨m', hfold, hmem, hle, hall⟩ := ih (m := o)
      refine ⟨m', ?_, ?_, le_trans h hle, ?_⟩
      · simpa [h] using hfold
      · rcases hmem with h' | h'
        · exact Or.inr (by simp [h'])
        · exact Or.inr (by simp [h'])
      · intro x hx
        rcases List.mem_cons.mp hx with h' | h'
        · exact h' ▸ hle
        · exact hall x h'
    · obtain ⟨m', hfold, hmem, hle, hall⟩ := ih (m := m)
      refine ⟨m', ?_, ?_, hle, ?_⟩
      · simpa [h] using hfold
      · rcases hmem with h' | h'
        · exact Or.inl h'
        · exact Or.inr (by simp [h'])
      · intro x hx
        rcases List.mem_cons.mp hx with h' | h'
        · exact h' ▸ le_trans (le_of_not_le h) hle
        · exact hall x h'

theorem max_by_price_eq_some {l : List Order} {m : Order}
    (h : max_by_price l = some m) :
    m ∈ l ∧ ∀ o ∈ l, o.price_per_a_in_b ≤ m.price_per_a_in_b := by
  cases l with
  | nil => simp [max_by_price] at h
  | cons o l =>
    obtain ⟨m', hfold, hmem, hle, hall⟩ := max_by_price_go (l := l) (m := o)
    have : max_by_price (o :: l) = some m' := by
      simpa [max_by_price] using hfold
    rw [this] at h
    obtain rfl : m' = m := Option.some.inj h
    constructor
    · rcases hmem with h' | h'
      · simp [h']
      · simp [h']
    · intro x hx
      rcases List.mem_cons.mp hx with h' | h'
      · exact h' ▸ hle
      · exact hall x h'

theorem max_by_price_eq_none {l : List Order} :
    max_by_price l = none ↔ l = [] := by
  cases l with
  | nil => simp [max_by_price]
  | cons o l =>
    obtain ⟨m', hfold, _, _, _⟩ := max_by_price_go (l := l) (m := o)
    have : max_by_price (o :: l) = some m' := by
      simpa [max_by_price] using hfold
    simp [this]

theorem min_by_price_go {l : List Order} {m : Order} :
    ∃ m', List.foldl
        (fun acc o =>
          match acc with
          | none => some o
          | some m => if o.price_per_a_in_b < m.price_per_a_in_b then some o else some m)
        (some m) l = some m' ∧ (m' = m ∨ m' ∈ l) ∧
      m'.price_per_a_in_b ≤ m.price_per_a_in_b ∧
      ∀ o ∈ l, m'.price_per_a_in_b ≤ o.price_per_a_in_b := by
  induction l generalizing m with
  | nil => exact ⟨m, rfl, Or.inl rfl, le_refl _, by simp⟩
  | cons o l ih =>
    by_cases h : o.price_per_a_in_b < m.price_per_a_in_b
    · obtain ⟨m', hfold, hmem, hle, hall⟩ := ih (m := o)
      refine ⟨m', ?_, ?_, le_trans hle (le_of_lt h), ?_⟩
      · simpa [h] using hfold
      · rcases hmem with h' | h'
        · exact Or.inr (by simp [h'])
        · exact Or.inr (by simp [h'])
      · intro x hx
        rcases List.mem_cons.mp hx with h' | h'
        · exact h' ▸ hle
        · exact hall x h'
    · obtain ⟨m', hfold, hmem, hle, hall⟩ := ih (m := m)
      refine ⟨m', ?_, ?_, hle, ?_⟩
      · simpa [h] using hfold
      · rcases hmem with h' | h'
        · exact Or.inl h'
        · exact Or.inr (by simp [h'])
      · intro x hx
        rcases List.mem_cons.mp hx with h' | h'
        · exact h' ▸ le_trans hle (le_of_not_lt h)
        · exact hall x h'

theorem min_by_price_eq_some {l : List Order} {m : Order}
    (h : min_by_price l = some m) :
    m ∈ l ∧ ∀ o ∈ l, m.price_per_a_in_b ≤ o.price_per_a_in_b := by
  cases l with
  | nil => simp [min_by_price] at h
  | cons o l =>
    obtain ⟨m', hfold, hmem, hle, hall⟩ := min_by_price_go (l := l) (m := o)
    have : min_by_price (o :: l) = some m' := by
      simpa [min_by_price] using hfold
    rw [this] at h
    obtain rfl : m' = m := Option.some.inj h
    constructor
    · rcases hmem with h' | h'
      · simp [h']
      · simp [h']
    · intro x hx
      rcases List.mem_cons.mp hx with h' | h'
      · exact h' ▸ hle
      · exact hall x h'

theorem min_by_price_eq_none {l : List Order} :
    min_by_price l = none ↔ l = [] := by
  cases l with
  | nil => simp [min_by_price]
  | cons o l =>
    obtain ⟨m', hfold, _, _, _⟩ := min_by_price_go (l := l) (m := o)
    have : min_by_price (o :: l) = some m' := by
      simpa [min_by_price] using hfold
    simp [this]

/-! ### Membership in the bid / ask streams -/

/-- The bid of agent `i` exists iff its B balance is positive, and is then
priced at its indifference price. -/
theorem mem_all_bids {assets : List (Agent × Balance)} {o : Order} :
    o ∈ all_bids assets ↔
      ∃ i p, assets[i]? = some p ∧ 0 < p.2.b ∧
        o = { agent_id := i
              typ := OrderType.Bid
              amount_a := p.2.b / p.1.indifference_price_of_a_in_b
              price_per_a_in_b := p.1.indifference_price_of_a_in_b } := by
  unfold all_bids order_table
  rw [List.filterMap_map, List.mem_filterMap]
  constructor
  · rintro ⟨⟨i, p⟩, hmem, hval⟩
    have hip : assets[i]? = some p := List.mk_mem_enum_iff_getElem?.mp hmem
    simp only [Function.comp, generate_orders] at hval
    by_cases hb : 0 < p.2.b
    · refine ⟨i, p, hip, hb, ?_⟩
      simp only [gt_iff_lt, hb, if_pos] at hval
      exact (Option.some.inj hval).symm
    · simp [gt_iff_lt, hb] at hval
  · rintro ⟨i, p, hip, hb, rfl⟩
    refine ⟨(i, p), List.mk_mem_enum_iff_getElem?.mpr hip, ?_⟩
    simp [Function.comp, generate_orders, gt_iff_lt, hb]

/-- The ask of agent `i` exists iff its A balance is positive, and is then
priced at its indifference price. -/
theorem mem_all_asks {assets : List (Agent × Balance)} {o : Order} :
    o ∈ all_asks assets ↔
      ∃ i p, assets[i]? = some p ∧ 0 < p.2.a ∧
        o = { agent_id := i
              typ := OrderType.Ask
              amount_a := p.2.a
              price_per_a_in_b := p.1.indifference_price_of_a_in_b } := by
  unfold all_asks order_table
  rw [List.filterMap_map, List.mem_filterMap]
  constructor
  · rintro ⟨⟨i, p⟩, hmem, hval⟩
    have hip : assets[i]? = some p := List.mk_mem_enum_iff_getElem?.mp hmem
    simp only [Function.comp, generate_orders] at hval
    by_cases ha : 0 < p.2.a
    · refine ⟨i, p, hip, ha, ?_⟩
      simp only [gt_iff_lt, ha, if_pos] at hval
      exact (Option.some.inj hval).symm
    · simp [gt_iff_lt, ha] at hval
  · rintro ⟨i, p, hip, ha, rfl⟩
    refine ⟨(i, p), List.mk_mem_enum_iff_getElem?.mpr hip, ?_⟩
    simp [Function.comp, generate_orders, gt_iff_lt, ha]

/-! ### Inversion of `find_next_trade` -/

/-- Unfolding a successful `find_next_trade`: it is built from the fold-chosen
highest bid and the fold-chosen lowest acceptable ask. -/
theorem find_next_trade_eq_some_elim {assets : List (Agent × Balance)} {t : Trade}
    (h : find_next_trade assets = some t) :
    ∃ bid ask,
      max_by_price (all_bids assets) = some bid ∧
      min_by_price ((all_asks assets).filter (acceptable_ask (some bid))) = some ask ∧
      t = { buyer := bid.agent_id
            seller := ask.agent_id
            amount_a := (clearing_terms bid ask (assets.getD bid.agent_id default).2
                (assets.getD ask.agent_id default).2).1
            amount_b := (clearing_terms bid ask (assets.getD bid.agent_id default).2
                (assets.getD ask.agent_id default).2).2 } := by
  cases hmax : max_by_price (all_bids assets) with
  | none =>
    cases hmin : min_by_price ((all_asks assets).filter (acceptable_ask none)) with
    | none => simp only [find_next_trade, hmax, hmin] at h; exact absurd h (by simp)
    | some a => simp only [find_next_trade, hmax, hmin] at h; exact absurd h (by simp)
  | some bid =>
    cases hmin : min_by_price ((all_asks assets).filter (acceptable_ask (some bid))) with
    | none => simp only [find_next_trade, hmax, hmin] at h; exact absurd h (by simp)
    | some ask =>
      simp only [find_next_trade, hmax, hmin, Option.some.injEq] at h
      exact ⟨bid, ask, rfl, hmin, h.symm⟩

/-- Everything true of a matched pair: the trade names the fold-chosen highest
bid's agent as buyer and the fold-chosen lowest acceptable ask's agent as
seller; the buyer has positive B balance, the seller positive A balance; both
orders are priced at their agent's indifference price; the ask is strictly
cheaper than the bid; the bid price is maximal among bids and the ask price
minimal among asks cheaper than the bid; the amounts are the clearing terms. -/
theorem next_trade_spec {assets : List (Agent × Balance)} {t : Trade}
    (h : find_next_trade assets = some t) :
    ∃ bid ask buyer seller,
      assets[bid.agent_id]? = some buyer ∧
      assets[ask.agent_id]? = some seller ∧
      t.buyer = bid.agent_id ∧ t.seller = ask.agent_id ∧
      0 < buyer.2.b ∧ 0 < seller.2.a ∧
      bid.price_per_a_in_b = buyer.1.indifference_price_of_a_in_b ∧
      ask.price_per_a_in_b = seller.1.indifference_price_of_a_in_b ∧
      ask.price_per_a_in_b < bid.price_per_a_in_b ∧
      bid ∈ all_bids assets ∧ ask ∈ all_asks assets ∧
      (∀ o ∈ all_bids assets, o.price_per_a_in_b ≤ bid.price_per_a_in_b) ∧
      (∀ o ∈ all_asks assets, o.price_per_a_in_b < bid.price_per_a_in_b →
        ask.price_per_a_in_b ≤ o.price_per_a_in_b) ∧
      t.amount_a = (clearing_terms bid ask buyer.2 seller.2).1 ∧
      t.amount_b = (clearing_terms bid ask buyer.2 seller.2).2 := by
  obtain ⟨bid, ask, hmax, hmin, rfl⟩ := find_next_trade_eq_some_elim h
  obtain ⟨hbid_mem, hbid_max⟩ := max_by_price_eq_some hmax
  obtain ⟨hask_mem', hask_min'⟩ := min_by_price_eq_some hmin
  obtain ⟨hask_mem, hask_ok⟩ := List.mem_filter.mp hask_mem'
  have hask_lt : ask.price_per_a_in_b < bid.price_per_a_in_b := by
    simpa [acceptable_ask] using hask_ok
  obtain ⟨i, buyer, hbuy, hb_pos, hbid_eq⟩ := mem_all_bids.mp hbid_mem
  obtain ⟨j, seller, hsell, ha_pos, hask_eq⟩ := mem_all_asks.mp hask_mem
  have hbid_id : bid.agent_id = i := by rw [hbid_eq]
  have hask_id : ask.agent_id = j := by rw [hask_eq]
  have hbid_price : bid.price_per_a_in_b = buyer.1.indifference_price_of_a_in_b := by
    rw [hbid_eq]
  have hask_price : ask.price_per_a_in_b = seller.1.indifference_price_of_a_in_b := by
    rw [hask_eq]
  have hbuy' : assets[bid.agent_id]? = some buyer := by rw [hbid_id]; exact hbuy
  have hsell' : assets[ask.agent_id]? = some seller := by rw [hask_id]; exact hsell
  have hgetb : assets.getD bid.agent_id default = buyer := by
    rw [List.getD_eq_getElem?_getD, hbuy']; rfl
  have hgets : assets.getD ask.agent_id default = seller := by
    rw [List.getD_eq_getElem?_getD, hsell']; rfl
  refine ⟨bid, ask, buyer, seller, hbuy', hsell', rfl, rfl, hb_pos, ha_pos,
    hbid_price, hask_price, hask_lt, hbid_mem, hask_mem, hbid_max, ?_, ?_, ?_⟩
  · intro o ho hlt
    exact hask_min' o (List.mem_filter.mpr ⟨ho, by simpa [acceptable_ask] using hlt⟩)
  · simp [List.getD_eq_getElem?_getD, hbuy', hsell']
  · simp [List.getD_eq_getElem?_getD, hbuy', hsell']

/-- An agent is never matched against itself. -/
theorem next_trade_buyer_ne_seller {assets : List (Agent × Balance)} {t : Trade}
    (h : find_next_trade assets = some t) : t.buyer ≠ t.seller := by
  obtain ⟨bid, ask, buyer, seller, hbuy, hsell, hb, hs, _, _, hbp, hap, hlt, _⟩ :=
    next_trade_spec h
  intro heq
  rw [hb, hs] at heq
  rw [heq] at hbuy
  rw [hbuy] at hsell
  obtain rfl : buyer = seller := Option.some.inj hsell
  rw [hbp, hap] at hlt
  exact lt_irrefl _ hlt

/-! ### Clearing-terms arithmetic -/

/-- A matched pair with a nonnegative ask price clears at a positive price. -/
theorem clearing_price_pos {bp ap : ℚ} (h0 : 0 ≤ ap) (hlt : ap < bp) :
    0 < (bp + ap) / 2 := by
  have : 0 < bp := lt_of_le_of_lt h0 hlt
  positivity

theorem clearing_terms_fst_le {bid ask : Order} {bb sb : Balance} :
    (clearing_terms bid ask bb sb).1 ≤ sb.a := by
  simp only [clearing_terms]
  split
  · next h => exact le_of_lt h
  · exact le_refl _

theorem clearing_terms_snd_le {bid ask : Order} {bb sb : Balance}
    (hc : 0 < (bid.price_per_a_in_b + ask.price_per_a_in_b) / 2) :
    (clearing_terms bid ask bb sb).2 ≤ bb.b := by
  simp only [clearing_terms]
  split
  · exact le_refl _
  · next h =>
    have h' : sb.a ≤ bb.b / ((bid.price_per_a_in_b + ask.price_per_a_in_b) / 2) :=
      le_of_not_lt h
    calc (bid.price_per_a_in_b + ask.price_per_a_in_b) / 2 * sb.a
        ≤ (bid.price_per_a_in_b + ask.price_per_a_in_b) / 2 *
            (bb.b / ((bid.price_per_a_in_b + ask.price_per_a_in_b) / 2)) := by
          exact mul_le_mul_of_nonneg_left h' (le_of_lt hc)
      _ = bb.b := mul_div_cancel₀ _ (ne_of_gt hc)

theorem clearing_terms_snd_eq {bid ask : Order} {bb sb : Balance}
    (hc : (bid.price_per_a_in_b + ask.price_per_a_in_b) / 2 ≠ 0) :
    (clearing_terms bid ask bb sb).2 =
      (bid.price_per_a_in_b + ask.price_per_a_in_b) / 2 * (clearing_terms bid ask bb sb).1 := by
  simp only [clearing_terms]
  split
  · exact (mul_div_cancel₀ _ hc).symm
  · rfl

theorem clearing_terms_fst_pos {bid ask : Order} {bb sb : Balance}
    (hc : 0 < (bid.price_per_a_in_b + ask.price_per_a_in_b) / 2)
    (hb : 0 < bb.b) (ha : 0 < sb.a) :
    0 < (clearing_terms bid ask bb sb).1 := by
  simp only [clearing_terms]
  split
  · exact div_pos hb hc
  · exact ha

/-! ### Settlement infrastructure -/

theorem modify_balance_length {assets : List (Agent × Balance)} {i : AgentId}
    {f : Balance → Balance} : (modify_balance assets i f).length = assets.length := by
  unfold modify_balance
  cases h : assets.get? i with
  | none => rfl
  | some p => exact List.length_set assets i _

theorem modify_balance_get_self {assets : List (Agent × Balance)} {i : AgentId}
    {f : Balance → Balance} {p : Agent × Balance} (h : assets[i]? = some p) :
    (modify_balance assets i f)[i]? = some (p.1, f p.2) := by
  unfold modify_balance
  rw [List.get?_eq_getElem?, h]
  exact List.getElem?_set_self (List.getElem?_eq_some.mp h).1

theorem modify_balance_get_other {assets : List (Agent × Balance)} {i j : AgentId}
    {f : Balance → Balance} (hne : i ≠ j) :
    (modify_balance assets i f)[j]? = assets[j]? := by
  unfold modify_balance
  cases h : assets.get? i with
  | none => rfl
  | some p => exact List.getElem?_set_ne hne

/-- Normal execution of `execute_one_trade` on a matched trade whose four
negative-balance checks and two utility checks all pass: the function commits
the four balance updates and returns `done = false`. -/
theorem execute_one_trade_ok {assets : List (Agent × Balance)} {t : Trade}
    {B S : Agent} {bb sb : Balance}
    (hfind : find_next_trade assets = some t)
    (hb : assets[t.buyer]? = some (B, bb))
    (hs : assets[t.seller]? = some (S, sb))
    (hne : t.buyer ≠ t.seller)
    (h1 : ¬ bb.a + t.amount_a < 0)
    (h2 : ¬ sb.a - t.amount_a < 0)
    (h3 : ¬ bb.b - t.amount_b < 0)
    (h4 : ¬ sb.b + t.amount_b < 0)
    (h5 : ¬ B.utility (bb.a + t.amount_a) (bb.b - t.amount_b) ≤ B.utility bb.a bb.b)
    (h6 : ¬ S.utility (sb.a - t.amount_a) (sb.b + t.amount_b) ≤ S.utility sb.a sb.b) :
    ∃ s', execute_one_trade assets = Except.ok (s', false) ∧
      s'.length = assets.length ∧
      s'[t.buyer]? = some (B, { a := bb.a + t.amount_a, b := bb.b - t.amount_b }) ∧
      s'[t.seller]? = some (S, { a := sb.a - t.amount_a, b := sb.b + t.amount_b }) ∧
      ∀ k, k ≠ t.buyer → k ≠ t.seller → s'[k]? = assets[k]? := by
  have hgb : assets.getD t.buyer default = (B, bb) := by
    rw [List.getD_eq_getElem?_getD, hb]; rfl
  have hgs : assets.getD t.seller default = (S, sb) := by
    rw [List.getD_eq_getElem?_getD, hs]; rfl
  -- the four intermediate states
  set s1 := modify_balance assets t.buyer (fun bal => { bal with a := bal.a + t.amount_a })
    with hs1_def
  set s2 := modify_balance s1 t.seller (fun bal => { bal with a := bal.a - t.amount_a })
    with hs2_def
  set s3 := modify_balance s2 t.buyer (fun bal => { bal with b := bal.b - t.amount_b })
    with hs3_def
  set s4 := modify_balance s3 t.seller (fun bal => { bal with b := bal.b + t.amount_b })
    with hs4_def
  have hs1b : s1[t.buyer]? = some (B, { a := bb.a + t.amount_a, b := bb.b }) :=
    modify_balance_get_self hb
  have hs1s : s1[t.seller]? = some (S, sb) := by
    rw [hs1_def, modify_balance_get_other hne]; exact hs
  have hs2s : s2[t.seller]? = some (S, { a := sb.a - t.amount_a, b := sb.b }) :=
    modify_balance_get_self hs1s
  have hs2b : s2[t.buyer]? = some (B, { a := bb.a + t.amount_a, b := bb.b }) := by
    rw [hs2_def, modify_balance_get_other (Ne.symm hne)]; exact hs1b
  have hs3b : s3[t.buyer]? =
      some (B, { a := bb.a + t.amount_a, b := bb.b - t.amount_b }) :=
    modify_balance_get_self hs2b
  have hs3s : s3[t.seller]? = some (S, { a := sb.a - t.amount_a, b := sb.b }) := by
    rw [hs3_def, modify_balance_get_other hne]; exact hs2s
  have hs4s : s4[t.seller]? =
      some (S, { a := sb.a - t.amount_a, b := sb.b + t.amount_b }) :=
    modify_balance_get_self hs3s
  have hs4b : s4[t.buyer]? =
      some (B, { a := bb.a + t.amount_a, b := bb.b - t.amount_b }) := by
    rw [hs4_def, modify_balance_get_other (Ne.symm hne)]; exact hs3b
  have hg1 : s1.getD t.buyer default = (B, { a := bb.a + t.amount_a, b := bb.b }) := by
    rw [List.getD_eq_getElem?_getD, hs1b]; rfl
  have hg2 : s2.getD t.seller default = (S, { a := sb.a - t.amount_a, b := sb.b }) := by
    rw [List.getD_eq_getElem?_getD, hs2s]; rfl
  have hg3 : s3.getD t.buyer default =
      (B, { a := bb.a + t.amount_a, b := bb.b - t.amount_b }) := by
    rw [List.getD_eq_getElem?_getD, hs3b]; rfl
  have hg4s : s4.getD t.seller default =
      (S, { a := sb.a - t.amount_a, b := sb.b + t.amount_b }) := by
    rw [List.getD_eq_getElem?_getD, hs4s]; rfl
  have hg4b : s4.getD t.buyer default =
      (B, { a := bb.a + t.amount_a, b := bb.b - t.amount_b }) := by
    rw [List.getD_eq_getElem?_getD, hs4b]; rfl
  refine ⟨s4, ?_, ?_, hs4b, hs4s, ?_⟩
  · simp only [execute_one_trade, hfind, hgb, hgs, ← hs1_def, ← hs2_def, ← hs3_def,
      ← hs4_def, hg1, hg2, hg3, hg4s, hg4b]
    rw [if_neg h1, if_neg h2, if_neg h3, if_neg h4, if_neg h5, if_neg h6]
  · rw [hs4_def, modify_balance_length, hs3_def, modify_balance_length,
      hs2_def, modify_balance_length, hs1_def, modify_balance_length]
  · intro k hkb hks
    rw [hs4_def, modify_balance_get_other (fun h => hks h.symm),
      hs3_def, modify_balance_get_other (fun h => hkb h.symm),
      hs2_def, modify_balance_get_other (fun h => hks h.symm),
      hs1_def, modify_balance_get_other (fun h => hkb h.symm)]

/-- Under the data-model invariant (strictly positive consumption
coefficients) and non-negative balances, a trade returned by
`find_next_trade` has strictly positive amounts, respects both parties'
inventories, and strictly improves both parties' utility. -/
theorem next_trade_good {assets : List (Agent × Balance)}
    (hcoeff : ∀ p ∈ assets, 0 < p.1.consumption_a_coeff ∧ 0 < p.1.consumption_b_coeff)
    {t : Trade} (hfind : find_next_trade assets = some t) :
    ∃ B S : Agent, ∃ bb sb : Balance,
      assets[t.buyer]? = some (B, bb) ∧
      assets[t.seller]? = some (S, sb) ∧
      t.buyer ≠ t.seller ∧
      0 < t.amount_a ∧ 0 < t.amount_b ∧
      t.amount_a ≤ sb.a ∧ t.amount_b ≤ bb.b ∧
      0 < bb.b ∧ 0 < sb.a ∧
      B.utility bb.a bb.b < B.utility (bb.a + t.amount_a) (bb.b - t.amount_b) ∧
      S.utility sb.a sb.b < S.utility (sb.a - t.amount_a) (sb.b + t.amount_b) := by
  obtain ⟨bid, ask, buyer, seller, hbuy, hsell, hbid, hsid, hbpos, hapos, hbp, hap,
    hlt, _, _, _, _, hamtA, hamtB⟩ := next_trade_spec hfind
  have hne : t.buyer ≠ t.seller := next_trade_buyer_ne_seller hfind
  obtain ⟨B, bb⟩ := buyer
  obtain ⟨S, sb⟩ := seller
  have hbuy' : assets[t.buyer]? = some (B, bb) := by rw [hbid]; exact hbuy
  have hsell' : assets[t.seller]? = some (S, sb) := by rw [hsid]; exact hsell
  have hBmem : (B, bb) ∈ assets := List.mem_iff_getElem?.mpr ⟨t.buyer, hbuy'⟩
  have hSmem : (S, sb) ∈ assets := List.mem_iff_getElem?.mpr ⟨t.seller, hsell'⟩
  obtain ⟨hBcA, hBcB⟩ := hcoeff _ hBmem
  obtain ⟨hScA, hScB⟩ := hcoeff _ hSmem
  simp only at hbp hap hamtA hamtB hbpos hapos
  have hbp_pos : 0 < bid.price_per_a_in_b := by
    rw [hbp]; exact div_pos hBcA hBcB
  have hap_pos : 0 < ask.price_per_a_in_b := by
    rw [hap]; exact div_pos hScA hScB
  set c := (bid.price_per_a_in_b + ask.price_per_a_in_b) / 2 with hc_def
  have hc_pos : 0 < c := by rw [hc_def]; linarith
  have hc_lt_bid : c < bid.price_per_a_in_b := by rw [hc_def]; linarith
  have hask_lt_c : ask.price_per_a_in_b < c := by rw [hc_def]; linarith
  have hA_pos : 0 < t.amount_a := by
    rw [hamtA]; exact clearing_terms_fst_pos hc_pos hbpos hapos
  have hB_eq : t.amount_b = c * t.amount_a := by
    rw [hamtA, hamtB]; exact clearing_terms_snd_eq (ne_of_gt hc_pos)
  have hB_pos : 0 < t.amount_b := by
    rw [hB_eq]; exact mul_pos hc_pos hA_pos
  have hA_le : t.amount_a ≤ sb.a := by rw [hamtA]; exact clearing_terms_fst_le
  have hB_le : t.amount_b ≤ bb.b := by rw [hamtB]; exact clearing_terms_snd_le hc_pos
  refine ⟨B, S, bb, sb, hbuy', hsell', hne, hA_pos, hB_pos, hA_le, hB_le, hbpos, hapos,
    ?_, ?_⟩
  · have hccb : c * B.consumption_b_coeff < B.consumption_a_coeff := by
      rw [hbp] at hc_lt_bid
      exact (lt_div_iff₀ hBcB).mp hc_lt_bid
    have key : 0 < t.amount_a * (B.consumption_a_coeff - c * B.consumption_b_coeff) :=
      mul_pos hA_pos (by linarith)
    simp only [Agent.utility]
    nlinarith [key, hB_eq]
  · have hccb : S.consumption_a_coeff < c * S.consumption_b_coeff := by
      rw [hap] at hask_lt_c
      exact (div_lt_iff₀ hScB).mp hask_lt_c
    have key : 0 < t.amount_a * (c * S.consumption_b_coeff - S.consumption_a_coeff) :=
      mul_pos hA_pos (by linarith)
    simp only [Agent.utility]
    nlinarith [key, hB_eq]

/-- One of the two sides is exhausted by the trade: either the buyer spends
its whole B balance, or the seller parts with its whole A holding. -/
theorem clearing_terms_exhausts {bid ask : Order} {bb sb : Balance} :
    (clearing_terms bid ask bb sb).2 = bb.b ∨ (clearing_terms bid ask bb sb).1 = sb.a := by
  simp only [clearing_terms]
  split
  · exact Or.inl rfl
  · exact Or.inr rfl

/-- A full good settlement step: with positive coefficients and non-negative
balances, `execute_one_trade` on a matched trade commits and keeps every
balance non-negative. -/
theorem execute_one_trade_good {assets : List (Agent × Balance)}
    (hcoeff : ∀ p ∈ assets, 0 < p.1.consumption_a_coeff ∧ 0 < p.1.consumption_b_coeff)
    (hbal : ∀ p ∈ assets, 0 ≤ p.2.a ∧ 0 ≤ p.2.b)
    {t : Trade} (hfind : find_next_trade assets = some t) :
    ∃ B S : Agent, ∃ bb sb : Balance, ∃ s' : List (Agent × Balance),
      assets[t.buyer]? = some (B, bb) ∧
      assets[t.seller]? = some (S, sb) ∧
      t.buyer ≠ t.seller ∧
      execute_one_trade assets = Except.ok (s', false) ∧
      s'.length = assets.length ∧
      s'[t.buyer]? = some (B, { a := bb.a + t.amount_a, b := bb.b - t.amount_b }) ∧
      s'[t.seller]? = some (S, { a := sb.a - t.amount_a, b := sb.b + t.amount_b }) ∧
      (∀ k, k ≠ t.buyer → k ≠ t.seller → s'[k]? = assets[k]?) ∧
      (∀ p ∈ s', 0 ≤ p.2.a ∧ 0 ≤ p.2.b) ∧
      0 < t.amount_a ∧ 0 < t.amount_b ∧
      t.amount_a ≤ sb.a ∧ t.amount_b ≤ bb.b ∧ 0 < bb.b ∧ 0 < sb.a ∧
      (bb.b - t.amount_b = 0 ∨ sb.a - t.amount_a = 0) := by
  obtain ⟨B, S, bb, sb, hbuy, hsell, hne, hA_pos, hB_pos, hA_le, hB_le, hbb_pos, hsa_pos,
    hUB, hUS⟩ := next_trade_good hcoeff hfind
  obtain ⟨hbba, hbbb⟩ := hbal _ (List.mem_iff_getElem?.mpr ⟨t.buyer, hbuy⟩)
  obtain ⟨hsba, hsbb⟩ := hbal _ (List.mem_iff_getElem?.mpr ⟨t.seller, hsell⟩)
  obtain ⟨s', hok, hlen, hsb', hss', hother⟩ :=
    execute_one_trade_ok hfind hbuy hsell hne
      (by linarith) (by linarith) (by linarith) (by linarith)
      (not_le.mpr hUB) (not_le.mpr hUS)
  refine ⟨B, S, bb, sb, s', hbuy, hsell, hne, hok, hlen, hsb', hss', hother, ?_, hA_pos,
    hB_pos, hA_le, hB_le, hbb_pos, hsa_pos, ?_⟩
  · intro p hp
    obtain ⟨k, hk⟩ := List.mem_iff_getElem?.mp hp
    by_cases hkb : k = t.buyer
    · rw [hkb, hsb'] at hk
      obtain rfl := Option.some.inj hk
      constructor
      · simp only; linarith
      · simp only; linarith
    · by_cases hks : k = t.seller
      · rw [hks, hss'] at hk
        obtain rfl := Option.some.inj hk
        constructor
        · simp only; linarith
        · simp only; linarith
      · rw [hother k hkb hks] at hk
        exact hbal _ (List.mem_iff_getElem?.mpr ⟨k, hk⟩)
  · -- one side is exhausted
    obtain ⟨bid, ask, buyer, seller, hbuy2, hsell2, hbid, hsid, _, _, _, _, _, _, _, _, _,
      hamtA, hamtB⟩ := next_trade_spec hfind
    have hbuyer_eq : buyer = (B, bb) := by
      rw [← hbid] at hbuy2
      exact Option.some.inj (hbuy2.symm.trans hbuy)
    have hseller_eq : seller = (S, sb) := by
      rw [← hsid] at hsell2
      exact Option.some.inj (hsell2.symm.trans hsell)
    rw [hbuyer_eq] at hamtA hamtB
    rw [hseller_eq] at hamtA hamtB
    rcases @clearing_terms_exhausts bid ask bb sb with h | h
    · left; rw [hamtB, h]; ring
    · right; rw [hamtA, h]; ring

/-- `find_next_trade` returns `none` exactly when no bid/ask pair with the
ask strictly cheaper than the bid exists. -/
theorem find_next_trade_eq_none_iff {assets : List (Agent × Balance)} :
    find_next_trade assets = none ↔
      ¬ ∃ b ∈ all_bids assets, ∃ a ∈ all_asks assets,
          a.price_per_a_in_b < b.price_per_a_in_b := by
  constructor
  · intro h
    rintro ⟨b, hb, a, ha, hlt⟩
    cases hmax : max_by_price (all_bids assets) with
    | none =>
      rw [max_by_price_eq_none] at hmax
      rw [hmax] at hb
      exact absurd hb (List.not_mem_nil b)
    | some bid =>
      obtain ⟨-, hmaxall⟩ := max_by_price_eq_some hmax
      have ha_acc : a ∈ (all_asks assets).filter (acceptable_ask (some bid)) := by
        refine List.mem_filter.mpr ⟨ha, ?_⟩
        simp only [acceptable_ask, decide_eq_true_eq]
        exact lt_of_lt_of_le hlt (hmaxall b hb)
      cases hmin : min_by_price ((all_asks assets).filter (acceptable_ask (some bid))) with
      | none =>
        rw [min_by_price_eq_none] at hmin
        rw [hmin] at ha_acc
        exact absurd ha_acc (List.not_mem_nil a)
      | some ask =>
        rw [show find_next_trade assets = some
            { buyer := bid.agent_id
              seller := ask.agent_id
              amount_a := (clearing_terms bid ask (assets.getD bid.agent_id default).2
                  (assets.getD ask.agent_id default).2).1
              amount_b := (clearing_terms bid ask (assets.getD bid.agent_id default).2
                  (assets.getD ask.agent_id default).2).2 } from by
          simp only [find_next_trade, hmax, hmin]] at h
        exact absurd h (by simp)
  · intro h
    cases hfind : find_next_trade assets with
    | none => rfl
    | some t =>
      obtain ⟨bid, ask, _, _, _, _, _, _, _, _, _, _, hlt, hbid_mem, hask_mem, _, _, _, _⟩ :=
        next_trade_spec hfind
      exact absurd ⟨bid, hbid_mem, ask, hask_mem, hlt⟩ h

/-- Any fatal abort inside `execute_one_trade` happens while settling a
matched trade, and the aborted state can differ from the input only at the
buyer's and the seller's entries. -/
theorem execute_one_trade_error_localized {assets s : List (Agent × Balance)}
    {e : FatalError} (h : execute_one_trade assets = Except.error (e, s)) :
    ∃ t, find_next_trade assets = some t ∧ s.length = assets.length ∧
      ∀ k, k ≠ t.buyer → k ≠ t.seller → s[k]? = assets[k]? := by
  cases hfind : find_next_trade assets with
  | none =>
    rw [show execute_one_trade assets = Except.ok (assets, true) from by
      simp only [execute_one_trade, hfind]] at h
    exact absurd h (by simp)
  | some t =>
    refine ⟨t, rfl, ?_⟩
    simp only [execute_one_trade, hfind] at h
    have len1 : ∀ (l : List (Agent × Balance)) (i : AgentId) (f : Balance → Balance),
        (modify_balance l i f).length = l.length := fun _ _ _ => modify_balance_length
    have other1 : ∀ (l : List (Agent × Balance)) (f : Balance → Balance) (k : AgentId),
        k ≠ t.buyer → (modify_balance l t.buyer f)[k]? = l[k]? :=
      fun l f k hk => modify_balance_get_other (fun hh => hk hh.symm)
    have other2 : ∀ (l : List (Agent × Balance)) (f : Balance → Balance) (k : AgentId),
        k ≠ t.seller → (modify_balance l t.seller f)[k]? = l[k]? :=
      fun l f k hk => modify_balance_get_other (fun hh => hk hh.symm)
    split_ifs at h with h1 h2 h3 h4 h5 h6
    · simp only [Except.error.injEq, Prod.mk.injEq] at h
      obtain ⟨-, rfl⟩ := h
      exact ⟨len1 _ _ _, fun k hkb _ => other1 _ _ k hkb⟩
    · simp only [Except.error.injEq, Prod.mk.injEq] at h
      obtain ⟨-, rfl⟩ := h
      refine ⟨by rw [len1, len1], fun k hkb hks => ?_⟩
      rw [other2 _ _ k hks, other1 _ _ k hkb]
    · simp only [Except.error.injEq, Prod.mk.injEq] at h
      obtain ⟨-, rfl⟩ := h
      refine ⟨by rw [len1, len1, len1], fun k hkb hks => ?_⟩
      rw [other1 _ _ k hkb, other2 _ _ k hks, other1 _ _ k hkb]
    · simp only [Except.error.injEq, Prod.mk.injEq] at h
      obtain ⟨-, rfl⟩ := h
      refine ⟨by rw [len1, len1, len1, len1], fun k hkb hks => ?_⟩
      rw [other2 _ _ k hks, other1 _ _ k hkb, other2 _ _ k hks, other1 _ _ k hkb]
    · simp only [Except.error.injEq, Prod.mk.injEq] at h
      obtain ⟨-, rfl⟩ := h
      refine ⟨by rw [len1, len1, len1, len1], fun k hkb hks => ?_⟩
      rw [other2 _ _ k hks, other1 _ _ k hkb, other2 _ _ k hks, other1 _ _ k hkb]
    · simp only [Except.error.injEq, Prod.mk.injEq] at h
      obtain ⟨-, rfl⟩ := h
      refine ⟨by rw [len1, len1, len1, len1], fun k hkb hks => ?_⟩
      rw [other2 _ _ k hks, other1 _ _ k hkb, other2 _ _ k hks, other1 _ _ k hkb]

theorem fixture_order_table : order_table fixture_assets =
    [ (some { agent_id := 0, typ := OrderType.Bid, amount_a := 10, price_per_a_in_b := 1/5 },
       some { agent_id := 0, typ := OrderType.Ask, amount_a := 1, price_per_a_in_b := 1/5 }),
      (some { agent_id := 1, typ := OrderType.Bid, amount_a := 1/2, price_per_a_in_b := 8 },
       some { agent_id := 1, typ := OrderType.Ask, amount_a := 3, price_per_a_in_b := 8 }) ] := by
  norm_num [order_table, generate_orders, Agent.indifference_price_of_a_in_b, fixture_assets,
    List.enum, List.enumFrom]

theorem fixture_all_bids : all_bids fixture_assets =
    [ { agent_id := 0, typ := OrderType.Bid, amount_a := 10, price_per_a_in_b := 1/5 },
      fixture_bid ] := by
  rw [all_bids, fixture_order_table]; rfl

theorem fixture_all_asks : all_asks fixture_assets =
    [ fixture_ask,
      { agent_id := 1, typ := OrderType.Ask, amount_a := 3, price_per_a_in_b := 8 } ] := by
  rw [all_asks, fixture_order_table]; rfl

theorem fixture_highest_bid :
    max_by_price (all_bids fixture_assets) = some fixture_bid := by
  rw [fixture_all_bids]
  norm_num [max_by_price, List.foldl, fixture_bid]

theorem fixture_ask_filter :
    (all_asks fixture_assets).filter (acceptable_ask (some fixture_bid)) = [fixture_ask] := by
  rw [fixture_all_asks]
  norm_num [List.filter, acceptable_ask, fixture_bid, fixture_ask]

theorem fixture_find : find_next_trade fixture_assets = some fixture_trade := by
  have hmin : min_by_price [fixture_ask] = some fixture_ask := rfl
  have hg1 : (fixture_assets[1]?).getD default =
      ({ production_a := 0, production_b := 0,
         consumption_a_coeff := 8, consumption_b_coeff := 1 },
       { a := 3, b := 4 }) := rfl
  have hg0 : (fixture_assets[0]?).getD default =
      ({ production_a := 0, production_b := 0,
         consumption_a_coeff := 1, consumption_b_coeff := 5 },
       { a := 1, b := 2 }) := rfl
  simp only [find_next_trade, fixture_highest_bid, fixture_ask_filter, hmin]
  norm_num [fixture_bid, fixture_ask, fixture_trade, clearing_terms, hg1, hg0]

theorem fixture_execute :
    execute_one_trade fixture_assets = Except.ok (fixture_after, false) := by
  have hb : fixture_assets[fixture_trade.buyer]? =
      some ({ production_a := 0, production_b := 0,
              consumption_a_coeff := 8, consumption_b_coeff := 1 },
            { a := 3, b := 4 }) := rfl
  have hs : fixture_assets[fixture_trade.seller]? =
      some ({ production_a := 0, production_b := 0,
              consumption_a_coeff := 1, consumption_b_coeff := 5 },
            { a := 1, b := 2 }) := rfl
  obtain ⟨s', hok, hlen, hsb', hss', hother⟩ :=
    execute_one_trade_ok fixture_find hb hs (by decide)
      (by norm_num [fixture_trade]) (by norm_num [fixture_trade])
      (by norm_num [fixture_trade]) (by norm_num [fixture_trade])
      (by norm_num [fixture_trade, Agent.utility])
      (by norm_num [fixture_trade, Agent.utility])
  have hs0 : s'[0]? =
      some ({ production_a := 0, production_b := 0,
              consumption_a_coeff := 1, consumption_b_coeff := 5 },
            { a := 1 - fixture_trade.amount_a, b := 2 + fixture_trade.amount_b }) := hss'
  have hs1 : s'[1]? =
      some ({ production_a := 0, production_b := 0,
              consumption_a_coeff := 8, consumption_b_coeff := 1 },
            { a := 3 + fixture_trade.amount_a, b := 4 - fixture_trade.amount_b }) := hsb'
  have hext : s' = fixture_after := by
    apply List.ext_getElem?
    intro n
    match n with
    | 0 =>
      rw [hs0]
      norm_num [fixture_trade, fixture_after]
    | 1 =>
      rw [hs1]
      norm_num [fixture_trade, fixture_after]
    | (n + 2) =>
      have hne1 : n + 2 ≠ fixture_trade.buyer := by
        simp only [fixture_trade]
        omega
      have hne0 : n + 2 ≠ fixture_trade.seller := by
        simp only [fixture_trade]
        omega
      have h2 : s'[n + 2]? = fixture_assets[n + 2]? := hother (n + 2) hne1 hne0
      rw [h2]
      rw [List.getElem?_eq_none (by norm_num [fixture_assets]),
        List.getElem?_eq_none (by norm_num [fixture_after])]
  rw [hext] at hok
  exact hok

theorem fixture_after_order_table : order_table fixture_after =
    [ (some { agent_id := 0, typ := OrderType.Bid, amount_a := 30, price_per_a_in_b := 1/5 },
       some { agent_id := 0, typ := OrderType.Ask, amount_a := 1/41, price_per_a_in_b := 1/5 }),
      (none,
       some { agent_id := 1, typ := OrderType.Ask, amount_a := 163/41, price_per_a_in_b := 8 }) ] := by
  norm_num [order_table, generate_orders, Agent.indifference_price_of_a_in_b, fixture_after,
    List.enum, List.enumFrom]

/-- After the fixture trade settles, no further trade exists: the only bid
(agent 0 at price 1/5) admits no strictly cheaper ask. -/
theorem fixture_after_find : find_next_trade fixture_after = none := by
  have hbids : all_bids fixture_after =
      [{ agent_id := 0, typ := OrderType.Bid, amount_a := 30, price_per_a_in_b := 1/5 }] := by
    rw [all_bids, fixture_after_order_table]; rfl
  have hasks : all_asks fixture_after =
      [ { agent_id := 0, typ := OrderType.Ask, amount_a := 1/41, price_per_a_in_b := 1/5 },
        { agent_id := 1, typ := OrderType.Ask, amount_a := 163/41, price_per_a_in_b := 8 } ] := by
    rw [all_asks, fixture_after_order_table]; rfl
  have hmax : max_by_price (all_bids fixture_after) =
      some { agent_id := 0, typ := OrderType.Bid, amount_a := 30, price_per_a_in_b := 1/5 } := by
    rw [hbids]; rfl
  have hfilter : (all_asks fixture_after).filter (acceptable_ask
      (some { agent_id := 0, typ := OrderType.Bid, amount_a := 30, price_per_a_in_b := 1/5 })) =
      [] := by
    rw [hasks]
    norm_num [List.filter, acceptable_ask]
  simp only [find_next_trade, hmax, hfilter]
  rfl

theorem fixture_loop : trade_loop 2 fixture_assets = Except.ok (some fixture_after) := by
  have h2 : execute_one_trade fixture_after = Except.ok (fixture_after, true) := by
    simp only [execute_one_trade, fixture_after_find]
  simp only [trade_loop, fixture_execute, h2]

theorem fixture_sort : sort_assets fixture_after = fixture_after := by
  norm_num [sort_assets, List.mergeSort, fixture_after, Agent.indifference_price_of_a_in_b]

theorem fixture_sanity : sanity_check_endpoint fixture_after = true := by
  rw [sanity_check_endpoint, sanity_remainder, fixture_sort]
  norm_num [fixture_after, List.dropWhile]

theorem fixture_execute_all :
    execute_all_trades 2 fixture_assets = Except.ok (some fixture_after) := by
  simp only [execute_all_trades, fixture_loop, fixture_sanity, if_true]

theorem shortfall_order_table : order_table shortfall_assets =
    [ (some { agent_id := 0, typ := OrderType.Bid, amount_a := 10, price_per_a_in_b := 1/5 },
       some { agent_id := 0, typ := OrderType.Ask, amount_a := 1, price_per_a_in_b := 1/5 }),
      (some { agent_id := 1, typ := OrderType.Bid, amount_a := 1/2, price_per_a_in_b := 8 },
       none) ] := by
  norm_num [order_table, generate_orders, Agent.indifference_price_of_a_in_b,
    shortfall_assets, List.enum, List.enumFrom]

theorem shortfall_find : find_next_trade shortfall_assets = some fixture_trade := by
  have hbids : all_bids shortfall_assets =
      [ { agent_id := 0, typ := OrderType.Bid, amount_a := 10, price_per_a_in_b := 1/5 },
        fixture_bid ] := by
    rw [all_bids, shortfall_order_table]; rfl
  have hasks : all_asks shortfall_assets = [fixture_ask] := by
    rw [all_asks, shortfall_order_table]; rfl
  have hmax : max_by_price (all_bids shortfall_assets) = some fixture_bid := by
    rw [hbids]
    norm_num [max_by_price, List.foldl, fixture_bid]
  have hfilter : (all_asks shortfall_assets).filter (acceptable_ask (some fixture_bid)) =
      [fixture_ask] := by
    rw [hasks]
    norm_num [List.filter, acceptable_ask, fixture_bid, fixture_ask]
  have hmin : min_by_price [fixture_ask] = some fixture_ask := rfl
  have hg1 : (shortfall_assets[1]?).getD default =
      ({ production_a := 0, production_b := 0,
         consumption_a_coeff := 8, consumption_b_coeff := 1 },
       { a := -5, b := 4 }) := rfl
  have hg0 : (shortfall_assets[0]?).getD default =
      ({ production_a := 0, production_b := 0,
         consumption_a_coeff := 1, consumption_b_coeff := 5 },
       { a := 1, b := 2 }) := rfl
  simp only [find_next_trade, hmax, hfilter, hmin]
  norm_num [fixture_bid, fixture_ask, fixture_trade, clearing_terms, hg1, hg0]

/-- On `shortfall_assets` the first negative-balance `panic!` fires, and the
state it aborts in is `shortfall_mid`: the buyer's A balance has already been
modified when the abort happens. -/
theorem shortfall_execute : execute_one_trade shortfall_assets =
    Except.error (FatalError.negative_balance, shortfall_mid) := by
  have hstep : modify_balance shortfall_assets fixture_trade.buyer
      (fun bal => { bal with a := bal.a + fixture_trade.amount_a }) =
      [ ({ production_a := 0, production_b := 0,
           consumption_a_coeff := 1, consumption_b_coeff := 5 },
         { a := 1, b := 2 }),
        ({ production_a := 0, production_b := 0,
           consumption_a_coeff := 8, consumption_b_coeff := 1 },
         { a := -5 + fixture_trade.amount_a, b := 4 }) ] := rfl
  have hm : modify_balance shortfall_assets fixture_trade.buyer
      (fun bal => { bal with a := bal.a + fixture_trade.amount_a }) = shortfall_mid := by
    rw [hstep]
    norm_num [fixture_trade, shortfall_mid]
  have hg : (shortfall_mid.getD fixture_trade.buyer default).2.a = -165/41 := rfl
  simp only [execute_one_trade, shortfall_find, hm]
  rw [if_pos (by rw [hg]; norm_num)]

theorem shortfall_mid_ne : shortfall_mid ≠ shortfall_assets := by
  intro h
  rw [shortfall_mid, shortfall_assets] at h
  simp only [List.cons.injEq, Prod.mk.injEq, Balance.mk.injEq] at h
  norm_num at h

/-- When the sanity check passes, the price-sorted population splits into the
three segments `a = 0`, then `a > 0 ∧ b > 0`, then `b = 0`, with nothing
left over. -/
theorem sanity_partition {assets : List (Agent × Balance)}
    (h : sanity_check_endpoint assets = true) :
    ∃ s1 s2 s3 : List (Agent × Balance),
      sort_assets assets = s1 ++ s2 ++ s3 ∧
      (∀ p ∈ s1, p.2.a = 0) ∧
      (∀ p ∈ s2, 0 < p.2.a ∧ 0 < p.2.b) ∧
      (∀ p ∈ s3, p.2.b = 0) := by
  rw [sanity_check_endpoint, List.isEmpty_iff, sanity_remainder] at h
  set l := sort_assets assets with hl
  set q1 : Agent × Balance → Bool := fun p => decide (p.2.a = 0) with hq1
  set q2 : Agent × Balance → Bool := fun p => decide (p.2.a > 0 ∧ p.2.b > 0) with hq2
  set q3 : Agent × Balance → Bool := fun p => decide (p.2.b = 0) with hq3
  refine ⟨l.takeWhile q1, (l.dropWhile q1).takeWhile q2,
    ((l.dropWhile q1).dropWhile q2).takeWhile q3, ?_, ?_, ?_, ?_⟩
  · have e3 : ((l.dropWhile q1).dropWhile q2).takeWhile q3 =
        (l.dropWhile q1).dropWhile q2 := by
      conv_rhs => rw [← List.takeWhile_append_dropWhile (p := q3)
        (l := (l.dropWhile q1).dropWhile q2)]
      rw [h, List.append_nil]
    rw [List.append_assoc, e3, List.takeWhile_append_dropWhile,
      List.takeWhile_append_dropWhile]
  · intro p hp
    have := List.mem_takeWhile_imp hp
    rwa [hq1, decide_eq_true_eq] at this
  · intro p hp
    have := List.mem_takeWhile_imp hp
    rw [hq2, decide_eq_true_eq] at this
    exact ⟨this.1, this.2⟩
  · intro p hp
    have := List.mem_takeWhile_imp hp
    rwa [hq3, decide_eq_true_eq] at this

theorem count_idx_le {assets : List (Agent × Balance)} {f : Agent × Balance → Bool} :
    count_idx assets f ≤ assets.length := by
  unfold count_idx
  calc ((Finset.range assets.length).filter _).card
      ≤ (Finset.range assets.length).card := Finset.card_filter_le _ _
    _ = assets.length := Finset.card_range _

theorem count_idx_congr {s t : List (Agent × Balance)} {f g : Agent × Balance → Bool}
    (hlen : s.length = t.length)
    (h : ∀ i, i < t.length → f (s.getD i default) = g (t.getD i default)) :
    count_idx s f = count_idx t g := by
  unfold count_idx
  rw [hlen]
  congr 1
  apply Finset.filter_congr
  intro i hi
  rw [h i (Finset.mem_range.mp hi)]

theorem count_idx_le_of_imp {s t : List (Agent × Balance)} {f g : Agent × Balance → Bool}
    (hlen : s.length = t.length)
    (h : ∀ i, i < t.length → f (s.getD i default) = true → g (t.getD i default) = true) :
    count_idx s f ≤ count_idx t g := by
  unfold count_idx
  rw [hlen]
  apply Finset.card_le_card
  intro i hi
  rw [Finset.mem_filter] at hi ⊢
  exact ⟨hi.1, h i (Finset.mem_range.mp hi.1) hi.2⟩

theorem count_idx_lt_of_imp {s t : List (Agent × Balance)} {f g : Agent × Balance → Bool}
    (hlen : s.length = t.length)
    (h : ∀ i, i < t.length → f (s.getD i default) = true → g (t.getD i default) = true)
    {j : ℕ} (hj : j < t.length)
    (hgj : g (t.getD j default) = true) (hfj : f (s.getD j default) = false) :
    count_idx s f < count_idx t g := by
  unfold count_idx
  rw [hlen]
  apply Finset.card_lt_card
  constructor
  · intro i hi
    rw [Finset.mem_filter] at hi ⊢
    exact ⟨hi.1, h i (Finset.mem_range.mp hi.1) hi.2⟩
  · intro hsub
    have hjmem : j ∈ (Finset.range t.length).filter
        (fun i => g (t.getD i default) = true) :=
      Finset.mem_filter.mpr ⟨Finset.mem_range.mpr hj, hgj⟩
    have := Finset.mem_filter.mp (hsub hjmem)
    rw [hfj] at this
    exact absurd this.2 (by simp)

theorem count_idx_pos {assets : List (Agent × Balance)} {f : Agent × Balance → Bool}
    {j : ℕ} (hj : j < assets.length) (hfj : f (assets.getD j default) = true) :
    0 < count_idx assets f := by
  unfold count_idx
  apply Finset.card_pos.mpr
  exact ⟨j, Finset.mem_filter.mpr ⟨Finset.mem_range.mpr hj, hfj⟩⟩

theorem getD_of_getElem? {l : List (Agent × Balance)} {i : ℕ} {p : Agent × Balance}
    (h : l[i]? = some p) : l.getD i default = p := by
  rw [List.getD_eq_getElem?_getD, h]
  rfl

theorem lt_length_of_getElem? {l : List (Agent × Balance)} {i : ℕ} {p : Agent × Balance}
    (h : l[i]? = some p) : i < l.length :=
  (List.getElem?_eq_some.mp h).1

/-- Each committed trade strictly decreases the termination measure. -/
theorem measure_decreases {assets : List (Agent × Balance)}
    (hcoeff : ∀ p ∈ assets, 0 < p.1.consumption_a_coeff ∧ 0 < p.1.consumption_b_coeff)
    (hbal : ∀ p ∈ assets, 0 ≤ p.2.a ∧ 0 ≤ p.2.b)
    {t : Trade} (hfind : find_next_trade assets = some t)
    {s' : List (Agent × Balance)}
    (hstep : execute_one_trade assets = Except.ok (s', false)) :
    measure_of s' < measure_of assets := by
  classical
  obtain ⟨B, S, bb, sb, s'', hbuy, hsell, hne, hok, hlen, hsb', hss', hother, hnonneg,
    hA_pos, hB_pos, hA_le, hB_le, hbb_pos, hsa_pos, hex⟩ :=
    execute_one_trade_good hcoeff hbal hfind
  have hss : s' = s'' := by
    have h := hstep.symm.trans hok
    simp only [Except.ok.injEq, Prod.mk.injEq, and_true] at h
    exact h
  subst hss
  obtain ⟨bid, ask, hmax, hmin, ht⟩ := find_next_trade_eq_some_elim hfind
  obtain ⟨hbid_mem, hbid_max⟩ := max_by_price_eq_some hmax
  obtain ⟨hask_mem', hask_min'⟩ := min_by_price_eq_some hmin
  obtain ⟨hask_mem, hask_ok⟩ := List.mem_filter.mp hask_mem'
  have hask_lt : ask.price_per_a_in_b < bid.price_per_a_in_b := by
    simpa [acceptable_ask] using hask_ok
  have htb : t.buyer = bid.agent_id := by rw [ht]
  have hts : t.seller = ask.agent_id := by rw [ht]
  obtain ⟨i0, bp, hbp_get, hbp_b, hbid_eq⟩ := mem_all_bids.mp hbid_mem
  obtain ⟨j0, sp, hsp_get, hsp_a, hask_eq⟩ := mem_all_asks.mp hask_mem
  have hi0 : bid.agent_id = i0 := by rw [hbid_eq]
  have hj0 : ask.agent_id = j0 := by rw [hask_eq]
  have hbp_pair : bp = (B, bb) := by
    apply Option.some.inj
    rw [← hbp_get, ← hbuy, htb, hi0]
  have hsp_pair : sp = (S, sb) := by
    apply Option.some.inj
    rw [← hsp_get, ← hsell, hts, hj0]
  have hBP : B.indifference_price_of_a_in_b = bid.price_per_a_in_b := by
    rw [hbid_eq, hbp_pair]
  have hSP : S.indifference_price_of_a_in_b < bid.price_per_a_in_b := by
    have : ask.price_per_a_in_b = S.indifference_price_of_a_in_b := by
      rw [hask_eq, hsp_pair]
    rw [← this]
    exact hask_lt
  set P := bid.price_per_a_in_b with hP_def
  set n := assets.length with hn_def
  have hbuyer_lt : t.buyer < n := lt_length_of_getElem? hbuy
  have hseller_lt : t.seller < n := lt_length_of_getElem? hsell
  have hgdb : assets.getD t.buyer default = (B, bb) := getD_of_getElem? hbuy
  have hgds : assets.getD t.seller default = (S, sb) := getD_of_getElem? hsell
  have hgdb' : s'.getD t.buyer default =
      (B, { a := bb.a + t.amount_a, b := bb.b - t.amount_b }) := getD_of_getElem? hsb'
  have hgds' : s'.getD t.seller default =
      (S, { a := sb.a - t.amount_a, b := sb.b + t.amount_b }) := getD_of_getElem? hss'
  have hother' : ∀ i, i ≠ t.buyer → i ≠ t.seller →
      s'.getD i default = assets.getD i default := by
    intro i hib his
    rw [List.getD_eq_getElem?_getD, List.getD_eq_getElem?_getD, hother i hib his]
  have hfst : ∀ i, (s'.getD i default).1 = (assets.getD i default).1 := by
    intro i
    by_cases hib : i = t.buyer
    · rw [hib, hgdb', hgdb]
    · by_cases his : i = t.seller
      · rw [his, hgds', hgds]
      · rw [hother' i hib his]
  -- every bid price in the new state is at most P
  have hbound : ∀ o ∈ all_bids s', o.price_per_a_in_b ≤ P := by
    intro o ho
    obtain ⟨i, p', hip, hpb, rfl⟩ := mem_all_bids.mp ho
    simp only
    by_cases hib : i = t.buyer
    · rw [hib, hsb'] at hip
      obtain rfl := Option.some.inj hip
      simp only
      rw [hBP]
    · by_cases his : i = t.seller
      · rw [his, hss'] at hip
        obtain rfl := Option.some.inj hip
        simp only
        exact le_of_lt hSP
      · rw [hother i hib his] at hip
        have := hbid_max _ (mem_all_bids.mpr ⟨i, p', hip, hpb, rfl⟩)
        simpa using this
  have hbb'_nonneg : 0 ≤ bb.b - t.amount_b := by
    have := (hnonneg _ (List.mem_iff_getElem?.mpr ⟨t.buyer, hsb'⟩)).2
    simpa using this
  have hsb'_nonneg : 0 ≤ sb.a - t.amount_a := by
    have := (hnonneg _ (List.mem_iff_getElem?.mpr ⟨t.seller, hss'⟩)).1
    simpa using this
  by_cases hb0 : bb.b - t.amount_b = 0
  · -- buyer exhausted
    cases hmax' : max_by_price (all_bids s') with
    | none =>
      have hc1 : 0 < count_idx assets
          (fun p => decide (p.1.indifference_price_of_a_in_b ≤ P)) := by
        apply count_idx_pos hbuyer_lt
        rw [hgdb]
        simp [hBP]
      simp only [measure_of, hmax', hmax]
      simp only [← hP_def, ← hn_def]
      have hX : 0 < (n + 1) ^ 2 := by positivity
      have h1 : 0 < count_idx assets
          (fun p => decide (p.1.indifference_price_of_a_in_b ≤ P)) * (n + 1) ^ 2 :=
        Nat.mul_pos hc1 hX
      omega
    | some m' =>
      obtain ⟨hm'mem, hm'max⟩ := max_by_price_eq_some hmax'
      have hm'le : m'.price_per_a_in_b ≤ P := hbound m' hm'mem
      rcases eq_or_lt_of_le hm'le with hPP | hPlt
      · -- same top price: the count of active top bidders drops
        have hc1eq : count_idx s'
            (fun p => decide (p.1.indifference_price_of_a_in_b ≤ P)) =
            count_idx assets
            (fun p => decide (p.1.indifference_price_of_a_in_b ≤ P)) := by
          apply count_idx_congr hlen
          intro i hi
          rw [hfst i]
        have hc2lt : count_idx s'
            (fun p => decide (p.1.indifference_price_of_a_in_b = P ∧ 0 < p.2.b)) <
            count_idx assets
            (fun p => decide (p.1.indifference_price_of_a_in_b = P ∧ 0 < p.2.b)) := by
          apply count_idx_lt_of_imp hlen ?_ hbuyer_lt ?_ ?_
          · intro i hi hf
            by_cases hib : i = t.buyer
            · rw [hib, hgdb'] at hf
              rw [decide_eq_true_eq] at hf
              exact absurd hf.2 (by rw [hb0]; exact lt_irrefl 0)
            · by_cases his : i = t.seller
              · rw [his, hgds'] at hf
                rw [decide_eq_true_eq] at hf
                exact absurd hf.1 (ne_of_lt hSP)
              · rw [hother' i hib his] at hf
                exact hf
          · rw [hgdb]
            rw [decide_eq_true_eq]
            exact ⟨hBP, hbb_pos⟩
          · rw [hgdb']
            rw [decide_eq_false_iff_not]
            rintro ⟨-, habs⟩
            rw [hb0] at habs
            exact lt_irrefl 0 habs
        have hc3le : count_idx s'
            (fun p => decide (p.1.indifference_price_of_a_in_b < P ∧ 0 < p.2.a)) ≤
            count_idx assets
            (fun p => decide (p.1.indifference_price_of_a_in_b < P ∧ 0 < p.2.a)) := by
          apply count_idx_le_of_imp hlen
          intro i hi hf
          by_cases hib : i = t.buyer
          · rw [hib, hgdb'] at hf
            rw [decide_eq_true_eq] at hf
            exact absurd hf.1 (by rw [hBP]; exact lt_irrefl P)
          · by_cases his : i = t.seller
            · rw [his, hgds'] at hf
              rw [decide_eq_true_eq] at hf
              rw [his, hgds, decide_eq_true_eq]
              exact ⟨hf.1, hsa_pos⟩
            · rw [hother' i hib his] at hf
              exact hf
        simp only [measure_of, hmax', hmax, hPP, hlen]
        simp only [← hP_def, ← hn_def]
        set c1 := count_idx assets
          (fun p => decide (p.1.indifference_price_of_a_in_b ≤ P)) with hc1_def
        set c2 := count_idx assets
          (fun p => decide (p.1.indifference_price_of_a_in_b = P ∧ 0 < p.2.b)) with hc2_def
        set c2' := count_idx s'
          (fun p => decide (p.1.indifference_price_of_a_in_b = P ∧ 0 < p.2.b)) with hc2'_def
        set c3 := count_idx assets
          (fun p => decide (p.1.indifference_price_of_a_in_b < P ∧ 0 < p.2.a)) with hc3_def
        set c3' := count_idx s'
          (fun p => decide (p.1.indifference_price_of_a_in_b < P ∧ 0 < p.2.a)) with hc3'_def
        rw [hc1eq]
        have hc3n : c3' < n + 1 := by
          have : c3' ≤ s'.length := count_idx_le
          omega
        have hmul : (c2' + 1) * (n + 1) ≤ c2 * (n + 1) :=
          Nat.mul_le_mul_right _ hc2lt
        have hexp : (c2' + 1) * (n + 1) = c2' * (n + 1) + (n + 1) := by ring
        omega
      · -- the top price drops
        have hc1lt : count_idx s'
            (fun p => decide (p.1.indifference_price_of_a_in_b ≤ m'.price_per_a_in_b)) <
            count_idx assets
            (fun p => decide (p.1.indifference_price_of_a_in_b ≤ P)) := by
          apply count_idx_lt_of_imp hlen ?_ hbuyer_lt ?_ ?_
          · intro i hi hf
            rw [hfst i] at hf
            rw [decide_eq_true_eq] at hf ⊢
            exact le_trans hf hm'le
          · rw [hgdb]
            rw [decide_eq_true_eq]
            rw [hBP]
          · rw [hgdb']
            rw [decide_eq_false_iff_not]
            intro habs
            rw [hBP] at habs
            exact absurd (lt_of_le_of_lt habs hPlt) (lt_irrefl P)
        simp only [measure_of, hmax', hmax, hlen]
        simp only [← hP_def, ← hn_def]
        set c1 := count_idx assets
          (fun p => decide (p.1.indifference_price_of_a_in_b ≤ P)) with hc1_def
        set c1' := count_idx s'
          (fun p => decide (p.1.indifference_price_of_a_in_b ≤ m'.price_per_a_in_b))
          with hc1'_def
        set c2 := count_idx assets
          (fun p => decide (p.1.indifference_price_of_a_in_b = P ∧ 0 < p.2.b)) with hc2_def
        set c2' := count_idx s'
          (fun p => decide (p.1.indifference_price_of_a_in_b = m'.price_per_a_in_b ∧
            0 < p.2.b)) with hc2'_def
        set c3 := count_idx assets
          (fun p => decide (p.1.indifference_price_of_a_in_b < P ∧ 0 < p.2.a)) with hc3_def
        set c3' := count_idx s'
          (fun p => decide (p.1.indifference_price_of_a_in_b < m'.price_per_a_in_b ∧
            0 < p.2.a)) with hc3'_def
        have hb2 : c2' ≤ n := by
          have : c2' ≤ s'.length := count_idx_le
          omega
        have hb3 : c3' ≤ n := by
          have : c3' ≤ s'.length := count_idx_le
          omega
        have hA : c2' * (n + 1) ≤ n * (n + 1) := Nat.mul_le_mul_right _ hb2
        have hB2 : n * (n + 1) + n < (n + 1) ^ 2 := by nlinarith
        have hC : (c1' + 1) * (n + 1) ^ 2 ≤ c1 * (n + 1) ^ 2 :=
          Nat.mul_le_mul_right _ hc1lt
        have hD : (c1' + 1) * (n + 1) ^ 2 = c1' * (n + 1) ^ 2 + (n + 1) ^ 2 := by ring
        omega
  · -- seller exhausted, buyer still active
    have hsa0 : sb.a - t.amount_a = 0 := hex.resolve_left hb0
    have hbb'pos : 0 < bb.b - t.amount_b := lt_of_le_of_ne hbb'_nonneg (Ne.symm hb0)
    have hmem0 : ∃ o : Order, o ∈ all_bids s' ∧
        o.price_per_a_in_b = B.indifference_price_of_a_in_b := by
      refine ⟨_, mem_all_bids.mpr ⟨t.buyer,
        (B, { a := bb.a + t.amount_a, b := bb.b - t.amount_b }), hsb', hbb'pos, rfl⟩, rfl⟩
    obtain ⟨o0, ho0_mem, ho0_price⟩ := hmem0
    cases hmax' : max_by_price (all_bids s') with
    | none =>
      rw [max_by_price_eq_none] at hmax'
      rw [hmax'] at ho0_mem
      exact absurd ho0_mem (List.not_mem_nil _)
    | some m' =>
      obtain ⟨hm'mem, hm'max⟩ := max_by_price_eq_some hmax'
      have hm'le : m'.price_per_a_in_b ≤ P := hbound m' hm'mem
      have hm'ge : P ≤ m'.price_per_a_in_b := by
        have := hm'max _ ho0_mem
        rw [ho0_price, hBP] at this
        exact this
      have hPP : m'.price_per_a_in_b = P := le_antisymm hm'le hm'ge
      have hc1eq : count_idx s'
          (fun p => decide (p.1.indifference_price_of_a_in_b ≤ P)) =
          count_idx assets
          (fun p => decide (p.1.indifference_price_of_a_in_b ≤ P)) := by
        apply count_idx_congr hlen
        intro i hi
        rw [hfst i]
      have hc2eq : count_idx s'
          (fun p => decide (p.1.indifference_price_of_a_in_b = P ∧ 0 < p.2.b)) =
          count_idx assets
          (fun p => decide (p.1.indifference_price_of_a_in_b = P ∧ 0 < p.2.b)) := by
        apply count_idx_congr hlen
        intro i hi
        by_cases hib : i = t.buyer
        · rw [hib, hgdb', hgdb]
          rw [decide_eq_decide]
          constructor
          · rintro ⟨h1, -⟩
            exact ⟨h1, hbb_pos⟩
          · rintro ⟨h1, -⟩
            exact ⟨h1, hbb'pos⟩
        · by_cases his : i = t.seller
          · rw [his, hgds', hgds]
            rw [decide_eq_decide]
            constructor
            · rintro ⟨h1, -⟩
              exact absurd h1 (ne_of_lt hSP)
            · rintro ⟨h1, -⟩
              exact absurd h1 (ne_of_lt hSP)
          · rw [hother' i hib his]
      have hc3lt : count_idx s'
          (fun p => decide (p.1.indifference_price_of_a_in_b < P ∧ 0 < p.2.a)) <
          count_idx assets
          (fun p => decide (p.1.indifference_price_of_a_in_b < P ∧ 0 < p.2.a)) := by
        apply count_idx_lt_of_imp hlen ?_ hseller_lt ?_ ?_
        · intro i hi hf
          by_cases hib : i = t.buyer
          · rw [hib, hgdb'] at hf
            rw [decide_eq_true_eq] at hf
            exact absurd hf.1 (by rw [hBP]; exact lt_irrefl P)
          · by_cases his : i = t.seller
            · rw [his, hgds'] at hf
              rw [decide_eq_true_eq] at hf
              exact absurd hf.2 (by rw [hsa0]; exact lt_irrefl 0)
            · rw [hother' i hib his] at hf
              exact hf
        · rw [hgds]
          rw [decide_eq_true_eq]
          exact ⟨hSP, hsa_pos⟩
        · rw [hgds']
          rw [decide_eq_false_iff_not]
          rintro ⟨-, habs⟩
          rw [hsa0] at habs
          exact lt_irrefl 0 habs
      simp only [measure_of, hmax', hmax, hPP, hlen]
      simp only [← hP_def, ← hn_def]
      rw [hc1eq, hc2eq]
      omega

/-- The trading loop reaches the `no more trades` round after finitely many
trades, for every population satisfying the data-model invariant. -/
theorem trade_loop_reaches_done {assets : List (Agent × Balance)}
    (hcoeff : ∀ p ∈ assets, 0 < p.1.consumption_a_coeff ∧ 0 < p.1.consumption_b_coeff)
    (hbal : ∀ p ∈ assets, 0 ≤ p.2.a ∧ 0 ≤ p.2.b) :
    ∃ fuel s, trade_loop fuel assets = Except.ok (some s) ∧ find_next_trade s = none := by
  generalize hk : measure_of assets = k
  induction k using Nat.strong_induction_on generalizing assets with
  | _ k ih =>
    cases hfind : find_next_trade assets with
    | none =>
      refine ⟨1, assets, ?_, hfind⟩
      simp only [trade_loop, execute_one_trade, hfind]
    | some t =>
      obtain ⟨B, S, bb, sb, s', hbuy, hsell, hne, hok, hlen, hsb', hss', hother, hnonneg,
        hA_pos, hB_pos, hA_le, hB_le, hbb_pos, hsa_pos, hex⟩ :=
        execute_one_trade_good hcoeff hbal hfind
      have hcoeff' : ∀ p ∈ s',
          0 < p.1.consumption_a_coeff ∧ 0 < p.1.consumption_b_coeff := by
        intro p hp
        obtain ⟨i, hi⟩ := List.mem_iff_getElem?.mp hp
        by_cases hib : i = t.buyer
        · rw [hib, hsb'] at hi
          obtain rfl := Option.some.inj hi
          exact hcoeff (B, bb) (List.mem_iff_getElem?.mpr ⟨t.buyer, hbuy⟩)
        · by_cases his : i = t.seller
          · rw [his, hss'] at hi
            obtain rfl := Option.some.inj hi
            exact hcoeff (S, sb) (List.mem_iff_getElem?.mpr ⟨t.seller, hsell⟩)
          · rw [hother i hib his] at hi
            exact hcoeff _ (List.mem_iff_getElem?.mpr ⟨i, hi⟩)
      have hmeas : measure_of s' < k := hk ▸ measure_decreases hcoeff hbal hfind hok
      obtain ⟨fuel, sfin, hloop, hnone⟩ := ih (measure_of s') hmeas hcoeff' hnonneg rfl
      refine ⟨fuel + 1, sfin, ?_, hnone⟩
      simp only [trade_loop, hok]
      exact hloop

/-! ### Claims -/

/-- C1: the spec (mirroring `test_find_next_trade`) claims `find_next_trade`
on the two-agent fixture returns `amount_a = 0.5`,
`amount_b = 0.12195121951219513`, and that re-running it after settlement
reproduces the identical trade.  The code disagrees on both points: it
returns `amount_a = 40/41 ≈ 0.9756` and `amount_b = 4` (the buyer's B
balance binds at the midpoint price `4.1`), and after settling that trade
`find_next_trade` returns none, so the asserted second identical trade never
happens.  The trade the test asserts is not the trade the code computes. -/
theorem C1_fixture_divergence :
    find_next_trade fixture_assets = some fixture_trade ∧
    fixture_trade ≠ fixture_expected_trade ∧
    execute_one_trade fixture_assets = Except.ok (fixture_after, false) ∧
    find_next_trade fixture_after = none := by
  refine ⟨fixture_find, ?_, fixture_execute, fixture_after_find⟩
  intro h
  rw [fixture_trade, fixture_expected_trade] at h
  simp only [Trade.mk.injEq] at h
  norm_num at h

/-- C2: `find_next_trade` matches the highest-priced bid against the
lowest-priced ask among the asks strictly cheaper than that bid (an ask
priced exactly at the bid is excluded), and returns none exactly when no
bid/ask pair with the ask strictly cheaper than the bid exists. -/
theorem C2_matcher_rule (assets : List (Agent × Balance)) :
    (∀ t, find_next_trade assets = some t →
      ∃ bid ask, bid ∈ all_bids assets ∧ ask ∈ all_asks assets ∧
        t.buyer = bid.agent_id ∧ t.seller = ask.agent_id ∧
        (∀ o ∈ all_bids assets, o.price_per_a_in_b ≤ bid.price_per_a_in_b) ∧
        ask.price_per_a_in_b < bid.price_per_a_in_b ∧
        (∀ o ∈ all_asks assets, o.price_per_a_in_b < bid.price_per_a_in_b →
          ask.price_per_a_in_b ≤ o.price_per_a_in_b)) ∧
    (find_next_trade assets = none ↔
      ¬ ∃ b ∈ all_bids assets, ∃ a ∈ all_asks assets,
          a.price_per_a_in_b < b.price_per_a_in_b) := by
  constructor
  · intro t h
    obtain ⟨bid, ask, _, _, _, _, htb, hts, _, _, _, _, hlt, hbid_mem, hask_mem,
      hbid_max, hask_min, _, _⟩ := next_trade_spec h
    exact ⟨bid, ask, hbid_mem, hask_mem, htb, hts, hbid_max, hlt, hask_min⟩
  · exact find_next_trade_eq_none_iff

theorem C2_matcher_rule_witness :
    ∃ bid ask, bid ∈ all_bids fixture_assets ∧ ask ∈ all_asks fixture_assets ∧
      fixture_trade.buyer = bid.agent_id ∧ fixture_trade.seller = ask.agent_id ∧
      (∀ o ∈ all_bids fixture_assets, o.price_per_a_in_b ≤ bid.price_per_a_in_b) ∧
      ask.price_per_a_in_b < bid.price_per_a_in_b ∧
      (∀ o ∈ all_asks fixture_assets, o.price_per_a_in_b < bid.price_per_a_in_b →
        ask.price_per_a_in_b ≤ o.price_per_a_in_b) :=
  (C2_matcher_rule fixture_assets).1 fixture_trade fixture_find

/-- C3: on a matched pair (ask strictly cheaper than the bid, ask price
non-negative) the trade terms are the midpoint-price clearing terms: if the
buyer's affordable quantity is below the seller's inventory the buyer binds
(`amount_a = b/price`, `amount_b = b`), otherwise the seller binds
(`amount_a = seller.a`, `amount_b = price * seller.a`); consequently
`amount_a ≤ seller_balance.a` and `amount_b ≤ buyer_balance.b`. -/
theorem C3_clearing_calculator (bid ask : Order) (bb sb : Balance)
    (h0 : 0 ≤ ask.price_per_a_in_b)
    (hlt : ask.price_per_a_in_b < bid.price_per_a_in_b) :
    clearing_terms bid ask bb sb =
      (if bb.b / ((bid.price_per_a_in_b + ask.price_per_a_in_b) / 2) < sb.a then
        (bb.b / ((bid.price_per_a_in_b + ask.price_per_a_in_b) / 2), bb.b)
      else
        (sb.a, (bid.price_per_a_in_b + ask.price_per_a_in_b) / 2 * sb.a)) ∧
    (clearing_terms bid ask bb sb).1 ≤ sb.a ∧
    (clearing_terms bid ask bb sb).2 ≤ bb.b := by
  have hc : 0 < (bid.price_per_a_in_b + ask.price_per_a_in_b) / 2 :=
    clearing_price_pos h0 hlt
  exact ⟨rfl, clearing_terms_fst_le, clearing_terms_snd_le hc⟩

theorem C3_clearing_calculator_witness :
    clearing_terms fixture_bid fixture_ask { a := 3, b := 4 } { a := 1, b := 2 } =
      (if (4 : ℚ) / ((fixture_bid.price_per_a_in_b + fixture_ask.price_per_a_in_b) / 2) < 1 then
        ((4 : ℚ) / ((fixture_bid.price_per_a_in_b + fixture_ask.price_per_a_in_b) / 2), 4)
      else
        (1, (fixture_bid.price_per_a_in_b + fixture_ask.price_per_a_in_b) / 2 * 1)) ∧
    (clearing_terms fixture_bid fixture_ask { a := 3, b := 4 } { a := 1, b := 2 }).1 ≤ 1 ∧
    (clearing_terms fixture_bid fixture_ask { a := 3, b := 4 } { a := 1, b := 2 }).2 ≤ 4 :=
  C3_clearing_calculator fixture_bid fixture_ask { a := 3, b := 4 } { a := 1, b := 2 }
    (by norm_num [fixture_ask]) (by norm_num [fixture_bid, fixture_ask])

/-- C4: on a population with (per the data model) strictly positive
consumption coefficients and non-negative balances, every trade returned by
`find_next_trade` strictly increases both the buyer's and the seller's
utility, and the two utility-regression `assert!` failures of
`execute_one_trade` are unreachable. -/
theorem C4_strict_surplus (assets : List (Agent × Balance))
    (hcoeff : ∀ p ∈ assets, 0 < p.1.consumption_a_coeff ∧ 0 < p.1.consumption_b_coeff)
    (hbal : ∀ p ∈ assets, 0 ≤ p.2.a ∧ 0 ≤ p.2.b) :
    (∀ t, find_next_trade assets = some t →
      ∀ B S : Agent, ∀ bb sb : Balance,
        assets[t.buyer]? = some (B, bb) → assets[t.seller]? = some (S, sb) →
        B.utility bb.a bb.b < B.utility (bb.a + t.amount_a) (bb.b - t.amount_b) ∧
        S.utility sb.a sb.b < S.utility (sb.a - t.amount_a) (sb.b + t.amount_b)) ∧
    (∀ s, execute_one_trade assets ≠ Except.error (FatalError.buyers_remorse, s) ∧
      execute_one_trade assets ≠ Except.error (FatalError.sellers_remorse, s)) := by
  constructor
  · intro t h B S bb sb hb hs
    obtain ⟨B', S', bb', sb', hb', hs', _, _, _, _, _, _, _, hUB, hUS⟩ :=
      next_trade_good hcoeff h
    have h1 : (B, bb) = (B', bb') := Option.some.inj (hb.symm.trans hb')
    have h2 : (S, sb) = (S', sb') := Option.some.inj (hs.symm.trans hs')
    simp only [Prod.mk.injEq] at h1 h2
    obtain ⟨rfl, rfl⟩ := h1
    obtain ⟨rfl, rfl⟩ := h2
    exact ⟨hUB, hUS⟩
  · intro s
    cases hfind : find_next_trade assets with
    | none =>
      have hok : execute_one_trade assets = Except.ok (assets, true) := by
        simp only [execute_one_trade, hfind]
      rw [hok]
      exact ⟨by simp, by simp⟩
    | some t =>
      obtain ⟨_, _, _, _, s', _, _, _, hok, _⟩ := execute_one_trade_good hcoeff hbal hfind
      rw [hok]
      exact ⟨by simp, by simp⟩

theorem C4_strict_surplus_witness :
    ({ production_a := 0, production_b := 0, consumption_a_coeff := 8,
       consumption_b_coeff := 1 } : Agent).utility 3 4 <
      ({ production_a := 0, production_b := 0, consumption_a_coeff := 8,
         consumption_b_coeff := 1 } : Agent).utility (3 + fixture_trade.amount_a)
        (4 - fixture_trade.amount_b) ∧
    ({ production_a := 0, production_b := 0, consumption_a_coeff := 1,
       consumption_b_coeff := 5 } : Agent).utility 1 2 <
      ({ production_a := 0, production_b := 0, consumption_a_coeff := 1,
         consumption_b_coeff := 5 } : Agent).utility (1 - fixture_trade.amount_a)
        (2 + fixture_trade.amount_b) :=
  (C4_strict_surplus fixture_assets
      (by
        intro p hp
        rw [fixture_assets] at hp
        rcases List.mem_cons.mp hp with rfl | hp'
        · norm_num
        · rcases List.mem_cons.mp hp' with rfl | hp''
          · norm_num
          · exact absurd hp'' (List.not_mem_nil p))
      (by
        intro p hp
        rw [fixture_assets] at hp
        rcases List.mem_cons.mp hp with rfl | hp'
        · norm_num
        · rcases List.mem_cons.mp hp' with rfl | hp''
          · norm_num
          · exact absurd hp'' (List.not_mem_nil p))).1
    fixture_trade fixture_find
    { production_a := 0, production_b := 0, consumption_a_coeff := 8,
      consumption_b_coeff := 1 }
    { production_a := 0, production_b := 0, consumption_a_coeff := 1,
      consumption_b_coeff := 5 }
    { a := 3, b := 4 } { a := 1, b := 2 } rfl rfl

/-- C5: starting from a population with (per the data model) strictly
positive consumption coefficients and non-negative balances, every balance
component is still non-negative after a settlement by `execute_one_trade`,
and the four negative-balance `panic!` branches are unreachable. -/
theorem C5_nonneg_invariant (assets : List (Agent × Balance))
    (hcoeff : ∀ p ∈ assets, 0 < p.1.consumption_a_coeff ∧ 0 < p.1.consumption_b_coeff)
    (hbal : ∀ p ∈ assets, 0 ≤ p.2.a ∧ 0 ≤ p.2.b) :
    (∀ s' done, execute_one_trade assets = Except.ok (s', done) →
      ∀ p ∈ s', 0 ≤ p.2.a ∧ 0 ≤ p.2.b) ∧
    (∀ s, execute_one_trade assets ≠ Except.error (FatalError.negative_balance, s)) := by
  constructor
  · intro s' done hok
    cases hfind : find_next_trade assets with
    | none =>
      have h : execute_one_trade assets = Except.ok (assets, true) := by
        simp only [execute_one_trade, hfind]
      rw [h] at hok
      simp only [Except.ok.injEq, Prod.mk.injEq] at hok
      obtain ⟨rfl, -⟩ := hok
      exact hbal
    | some t =>
      obtain ⟨_, _, _, _, s'', _, _, _, hok', _, _, _, _, hnonneg, _⟩ :=
        execute_one_trade_good hcoeff hbal hfind
      rw [hok'] at hok
      simp only [Except.ok.injEq, Prod.mk.injEq] at hok
      obtain ⟨rfl, -⟩ := hok
      exact hnonneg
  · intro s
    cases hfind : find_next_trade assets with
    | none =>
      have h : execute_one_trade assets = Except.ok (assets, true) := by
        simp only [execute_one_trade, hfind]
      rw [h]
      simp
    | some t =>
      obtain ⟨_, _, _, _, s', _, _, _, hok, _⟩ := execute_one_trade_good hcoeff hbal hfind
      rw [hok]
      simp

theorem C5_nonneg_invariant_witness :
    0 ≤ (1/41 : ℚ) ∧ 0 ≤ (6 : ℚ) :=
  (C5_nonneg_invariant fixture_assets
      (by
        intro p hp
        rw [fixture_assets] at hp
        rcases List.mem_cons.mp hp with rfl | hp'
        · norm_num
        · rcases List.mem_cons.mp hp' with rfl | hp''
          · norm_num
          · exact absurd hp'' (List.not_mem_nil p))
      (by
        intro p hp
        rw [fixture_assets] at hp
        rcases List.mem_cons.mp hp with rfl | hp'
        · norm_num
        · rcases List.mem_cons.mp hp' with rfl | hp''
          · norm_num
          · exact absurd hp'' (List.not_mem_nil p))).1
    fixture_after false fixture_execute
    ({ production_a := 0, production_b := 0,
       consumption_a_coeff := 1, consumption_b_coeff := 5 },
     { a := 1/41, b := 6 })
    (by rw [fixture_after]; exact List.mem_cons_self _ _)

/-- C6: whenever a full run of `execute_all_trades` ends without a fatal
violation (the sanity check included), the terminal population, sorted by
ascending indifference price, is a prefix of agents with `a = 0`, then a
segment with `a > 0 ∧ b > 0`, then a suffix with `b = 0`, nothing left
over. -/
theorem C6_terminal_partition (fuel : Nat) (assets s : List (Agent × Balance))
    (h : execute_all_trades fuel assets = Except.ok (some s)) :
    ∃ s1 s2 s3 : List (Agent × Balance),
      sort_assets s = s1 ++ s2 ++ s3 ∧
      (∀ p ∈ s1, p.2.a = 0) ∧
      (∀ p ∈ s2, 0 < p.2.a ∧ 0 < p.2.b) ∧
      (∀ p ∈ s3, p.2.b = 0) := by
  unfold execute_all_trades at h
  cases hl : trade_loop fuel assets with
  | error e => rw [hl] at h; exact absurd h (by simp)
  | ok r =>
    cases r with
    | none => rw [hl] at h; exact absurd h (by simp)
    | some s0 =>
      rw [hl] at h
      simp only at h
      split_ifs at h with hcheck
      simp only [Except.ok.injEq, Option.some.injEq] at h
      obtain rfl := h
      exact sanity_partition hcheck

theorem C6_terminal_partition_witness :
    ∃ s1 s2 s3 : List (Agent × Balance),
      sort_assets fixture_after = s1 ++ s2 ++ s3 ∧
      (∀ p ∈ s1, p.2.a = 0) ∧
      (∀ p ∈ s2, 0 < p.2.a ∧ 0 < p.2.b) ∧
      (∀ p ∈ s3, p.2.b = 0) :=
  C6_terminal_partition 2 fixture_assets fixture_after fixture_execute_all

/-- C7: for every population satisfying the data-model invariant (strictly
positive consumption coefficients, non-negative balances), the trading loop
terminates: after finitely many committed trades a round is reached where
`find_next_trade` returns none. -/
theorem C7_termination (assets : List (Agent × Balance))
    (hcoeff : ∀ p ∈ assets, 0 < p.1.consumption_a_coeff ∧ 0 < p.1.consumption_b_coeff)
    (hbal : ∀ p ∈ assets, 0 ≤ p.2.a ∧ 0 ≤ p.2.b) :
    ∃ fuel s, trade_loop fuel assets = Except.ok (some s) ∧ find_next_trade s = none :=
  trade_loop_reaches_done hcoeff hbal

theorem C7_termination_witness :
    ∃ fuel s, trade_loop fuel fixture_assets = Except.ok (some s) ∧
      find_next_trade s = none :=
  C7_termination fixture_assets
    (by
      intro p hp
      rw [fixture_assets] at hp
      rcases List.mem_cons.mp hp with rfl | hp'
      · norm_num
      · rcases List.mem_cons.mp hp' with rfl | hp''
        · norm_num
        · exact absurd hp'' (List.not_mem_nil p))
    (by
      intro p hp
      rw [fixture_assets] at hp
      rcases List.mem_cons.mp hp with rfl | hp'
      · norm_num
      · rcases List.mem_cons.mp hp' with rfl | hp''
        · norm_num
        · exact absurd hp'' (List.not_mem_nil p))

/-- C8 counterexample: the claim says that when the fatal
constraint-violation path is taken, no agent's balance has been modified.
On `shortfall_assets` the first negative-balance check fires, and the state
at the abort (`shortfall_mid`) already has the buyer's A balance modified:
the check runs after its update, not before. -/
theorem C8_counterexample :
    execute_one_trade shortfall_assets =
      Except.error (FatalError.negative_balance, shortfall_mid) ∧
    shortfall_mid ≠ shortfall_assets :=
  ⟨shortfall_execute, shortfall_mid_ne⟩

/-- C8 (amended): when the constraint-violation path is taken,
`execute_one_trade` aborts without returning a settled state; at the abort,
only the matched buyer's and seller's entries can have been modified (the
updates already performed, including the violating one, remain), and every
third party's entry is untouched. -/
theorem C8_abort_localized (assets s : List (Agent × Balance))
    (h : execute_one_trade assets = Except.error (FatalError.negative_balance, s)) :
    ∃ t, find_next_trade assets = some t ∧ s.length = assets.length ∧
      ∀ k, k ≠ t.buyer → k ≠ t.seller → s[k]? = assets[k]? :=
  execute_one_trade_error_localized h

theorem C8_abort_localized_witness :
    ∃ t, find_next_trade shortfall_assets = some t ∧
      shortfall_mid.length = shortfall_assets.length ∧
      ∀ k, k ≠ t.buyer → k ≠ t.seller → shortfall_mid[k]? = shortfall_assets[k]? :=
  C8_abort_localized shortfall_assets shortfall_mid shortfall_execute

/-- C9: trading any quantity `d` exactly at the agent's own indifference
price leaves its linear utility unchanged (exactly, in the rational model),
for strictly positive consumption coefficients. -/
theorem C9_indifference_invariance (ag : Agent) (d qa qb : ℚ)
    (hA : 0 < ag.consumption_a_coeff) (hB : 0 < ag.consumption_b_coeff) :
    ag.utility (qa + d) (qb - d * ag.indifference_price_of_a_in_b) =
      ag.utility qa qb := by
  unfold Agent.utility Agent.indifference_price_of_a_in_b
  field_simp
  ring

theorem C9_indifference_invariance_witness :
    test_agent.utility (10 + 1) (10 - 1 * test_agent.indifference_price_of_a_in_b) =
      test_agent.utility 10 10 :=
  C9_indifference_invariance test_agent 1 10 10
    (by norm_num [test_agent]) (by norm_num [test_agent])

/-- C10: a trade never matches an agent against itself, the matched bid
is strictly dearer than the matched ask, and the midpoint clearing price
lies strictly between the two. -/
theorem C10_no_self_trade (assets : List (Agent × Balance)) (t : Trade)
    (h : find_next_trade assets = some t) :
    t.buyer ≠ t.seller ∧
    ∃ bid ask, bid ∈ all_bids assets ∧ ask ∈ all_asks assets ∧
      t.buyer = bid.agent_id ∧ t.seller = ask.agent_id ∧
      ask.price_per_a_in_b < bid.price_per_a_in_b ∧
      ask.price_per_a_in_b < (bid.price_per_a_in_b + ask.price_per_a_in_b) / 2 ∧
      (bid.price_per_a_in_b + ask.price_per_a_in_b) / 2 < bid.price_per_a_in_b := by
  refine ⟨next_trade_buyer_ne_seller h, ?_⟩
  obtain ⟨bid, ask, _, _, _, _, htb, hts, _, _, _, _, hlt, hbid_mem, hask_mem, _, _, _, _⟩ :=
    next_trade_spec h
  exact ⟨bid, ask, hbid_mem, hask_mem, htb, hts, hlt, by linarith, by linarith⟩

theorem C10_no_self_trade_witness :
    fixture_trade.buyer ≠ fixture_trade.seller ∧
    ∃ bid ask, bid ∈ all_bids fixture_assets ∧ ask ∈ all_asks fixture_assets ∧
      fixture_trade.buyer = bid.agent_id ∧ fixture_trade.seller = ask.agent_id ∧
      ask.price_per_a_in_b < bid.price_per_a_in_b ∧
      ask.price_per_a_in_b < (bid.price_per_a_in_b + ask.price_per_a_in_b) / 2 ∧
      (bid.price_per_a_in_b + ask.price_per_a_in_b) / 2 < bid.price_per_a_in_b :=
  C10_no_self_trade fixture_assets fixture_trade fixture_find
